import Mathlib

/-!
Verification of the Build-engine portal renderer (crates `map` and `render`).

The development shallowly embeds the Rust sources:
  * `src/render/src/d3/algo.rs`  — interval algebra and the `Coverage` structure;
  * `src/render/src/d3.rs`       — the 3D renderer (`Renderer::render` and helpers);
  * `src/render/src/util.rs`     — the clipping primitives;
  * `src/render/src/controller.rs` — `update_player`;
  * `src/map/src/player.rs`, `src/map/src/sector.rs` — the map data model.

Machine integers are modelled as unbounded `Int` with explicit 32-bit wrapping
(`wrap32`) at the spots where the Rust arithmetic can actually overflow in
release mode, and with explicit saturation (`i32sat`) at `f32 as i32` casts.
The `f32`/`f64` arithmetic of the projection pipeline is modelled exactly over
an executable fraction type `Frac` (pairs of integers, positive denominator,
no gcd normalisation so that the kernel can evaluate it); the only values a
`Frac` cannot represent exactly are the results of `sin`/`cos`, which are
therefore passed into the renderer as parameters standing for the trig values
of the player angle (the source computes them once, in `compute_transform`).
Real-valued facts about the angle conversion itself use `Real`.
-/

namespace Build

/-! ## Interval algebra (src/render/src/d3/algo.rs) -/

/-- Interval type from algo.rs: `[a, b)`, non-inclusive on the right.
`none` represents the empty interval. -/
abbrev Interval := Option (ℤ × ℤ)

/-- Helper for `intersect`: the branch of algo.rs's `intersect` reached once
`u[0] ≤ v[0]` holds (the source swaps the arguments by a self-call of depth
one when `u[0] > v[0]`; the swapped call is inlined here). -/
def intersectSorted (u v : ℤ × ℤ) : Interval :=
  if u.2 ≤ v.1 then none else some (v.1, min v.2 u.2)

/-- `intersect` from algo.rs. -/
def intersect (u v : Interval) : Interval :=
  match u, v with
  | none, _ => none
  | _, none => none
  | some a, some b => if a.1 > b.1 then intersectSorted b a else intersectSorted a b

/-- `contains` from algo.rs: tests whether `point` lies in interval `u`. -/
def contains (u : Interval) (point : ℤ) : Bool :=
  match u with
  | some a => decide (point ≥ a.1) && decide (point < a.2)
  | none => false

/-- Modelled from the spec: the constructor `algo::interval(l, r)` is called by
d3.rs but its definition is not present under src/.  Spec §3 defines the
Interval value type as the half-open `[left, right)`, "Empty when
`right ≤ left`", with `None` representing the empty interval, so the
constructor returns `none` exactly when `r ≤ l`. -/
def interval (l r : ℤ) : Interval :=
  if r ≤ l then none else some (l, r)

/-- Modelled from the spec (§4.1): the reference definition of intersection the
spec states, `intersect(A, B) = [max(A.l, B.l), min(A.r, B.r))`, "returning
empty when the result has `r ≤ l`" (claim C5 compares `intersect` to this). -/
def intersectSpec (u v : Interval) : Interval :=
  match u, v with
  | none, _ => none
  | _, none => none
  | some a, some b =>
    if min a.2 b.2 ≤ max a.1 b.1 then none else some (max a.1 b.1, min a.2 b.2)

/-- An interval value that is `none` or properly ordered (`l < r`); degenerate
`some (a, b)` values with `b ≤ a` are excluded. -/
def ProperInterval (u : Interval) : Prop :=
  match u with
  | none => True
  | some a => a.1 < a.2

instance : DecidablePred ProperInterval := by
  intro u
  unfold ProperInterval
  match u with
  | none => exact inferInstanceAs (Decidable True)
  | some a => exact inferInstanceAs (Decidable (a.1 < a.2))

/-! ## Column coverage (src/render/src/d3/algo.rs, struct Coverage) -/

/-- Frame width in pixels (src/render/src/frame.rs). -/
def WIDTH : ℕ := 320

/-- Frame height in pixels (src/render/src/frame.rs). -/
def HEIGHT : ℕ := 200

/-- Coverage structure from algo.rs: per-column interval of rows still to be
drawn, plus the count of non-empty (`some`-valued) columns. -/
structure Coverage where
  columns : List Interval
  non_empty : ℕ
deriving DecidableEq, Repr

/-- `Coverage::new()`. -/
def Coverage.new : Coverage :=
  ⟨List.replicate WIDTH (some (0, (HEIGHT : ℤ))), WIDTH⟩

/-- `Coverage::is_full()`. -/
def Coverage.is_full (c : Coverage) : Bool :=
  c.non_empty == 0

/-- `Coverage::get_column(column)`.  The outer `Option` models the Rust panic:
`none` means the vector indexing `self.columns[column]` panicked.  When the
coverage is full the source returns `None` without indexing. -/
def Coverage.get_column (c : Coverage) (column : ℕ) : Option Interval :=
  if c.is_full then some none
  else if h : column < c.columns.length then some (c.columns.get ⟨column, h⟩)
  else none

/-- `Coverage::intersect_column(column, interval)`.  The outer `Option` models
the Rust panic on an out-of-range column index.  The decrement
`self.non_empty -= 1` cannot underflow because the full case returns early. -/
def Coverage.intersect_column (c : Coverage) (column : ℕ) (i : Interval) :
    Option Coverage :=
  if c.is_full then some c
  else if h : column < c.columns.length then
    let u := c.columns.get ⟨column, h⟩
    let v := intersect u i
    some { columns := c.columns.set column v
           non_empty := if u.isSome && v.isNone then c.non_empty - 1 else c.non_empty }
  else none

/-- `Coverage::reset()`. -/
def Coverage.reset (c : Coverage) : Coverage :=
  ⟨c.columns.map (fun _ => some (0, (HEIGHT : ℤ))), WIDTH⟩

/-- `Coverage::set_full_coverage()`: forces `non_empty` to 0 without touching
the columns. -/
def Coverage.set_full_coverage (c : Coverage) : Coverage :=
  { c with non_empty := 0 }

/-- Number of non-empty (`some`-valued) column intervals. -/
def countSome (l : List Interval) : ℕ :=
  (l.filter Option.isSome).length

/-- Coverage states reachable from `Coverage::new` by `reset` and (successful)
`intersect_column` calls — the operation set of claim C4 without
`set_full_coverage`. -/
inductive ReachNS : Coverage → Prop
  | new : ReachNS Coverage.new
  | reset {c : Coverage} : ReachNS c → ReachNS c.reset
  | icol {c c' : Coverage} {col : ℕ} {i : Interval} :
      ReachNS c → Coverage.intersect_column c col i = some c' → ReachNS c'

end Build

namespace Build

/-! ## Map data model (src/map/src/sector.rs, src/map/src/player.rs)

Only the fields the renderer and the movement step read are embedded; the
texturing, shading and tag fields are never consulted by the code under
verification. -/

/-- Wall fields read by the core (src/map/src/sector.rs).  `point2` and
`next_sector` are i16 in the source; their values are embedded as integers. -/
structure Wall where
  x : ℤ
  y : ℤ
  point2 : ℤ
  next_sector : ℤ
deriving DecidableEq, Repr

/-- Sector fields read by the core (src/map/src/sector.rs). -/
structure Sector where
  wallptr : ℕ
  wallnum : ℕ
  ceiling_z : ℤ
  floor_z : ℤ
deriving DecidableEq, Repr

/-- Player fields (src/map/src/player.rs); `angle` holds the raw i16 value of
the `Angle` newtype. -/
structure Player where
  pos_x : ℤ
  pos_y : ℤ
  pos_z : ℤ
  angle : ℤ
  sector : ℤ
deriving DecidableEq, Repr

/-- The parsed map as the renderer sees it (`map::Map` with its `Sectors`). -/
structure MapData where
  sectors : List Sector
  walls : List Wall
  player : Player
deriving DecidableEq, Repr

/-- `Sectors::get(sector)` restricted to the sector record: `None` for a
negative index or one past the end. -/
def sectorsGet (m : MapData) (sector : ℤ) : Option Sector :=
  if sector < 0 then none else m.sectors.get? sector.toNat

/-- The `SectorWalls` iterator of sector.rs, drained to a list.  Each item is
`(curr, left, right)` with `left = walls[curr]` and
`right = walls[left.point2]`; iteration stops once `left.point2` equals the
first wall of the run.  A `none` result models a Rust panic (an out-of-range
`curr` or `point2` index) and also the diverging iteration of a `point2`
chain that never returns to `first` — the fuel passed by `sectorWalls` is one
more than the total wall count, and a chain that closes at all closes within
that many steps. -/
def sectorWallsAux (walls : List Wall) (first : ℕ) : ℕ → ℕ → Option (List (ℕ × Wall × Wall))
  | _, 0 => none
  | curr, fuel+1 =>
    match walls.get? curr with
    | none => none
    | some left =>
      if left.point2 < 0 then none
      else
        match walls.get? left.point2.toNat with
        | none => none
        | some right =>
          if left.point2.toNat = first then some [(curr, left, right)]
          else (sectorWallsAux walls first left.point2.toNat fuel).map
            (fun rest => (curr, left, right) :: rest)

/-- `Sectors::get`: the sector record together with its drained wall iterator. -/
def sectorWalls (m : MapData) (sid : ℤ) : Option (Sector × List (ℕ × Wall × Wall)) :=
  match sectorsGet m sid with
  | none => none
  | some sec =>
    (sectorWallsAux m.walls sec.wallptr sec.wallptr (m.walls.length + 1)).map
      (fun chain => (sec, chain))

/-! ## Machine-integer helpers -/

/-- Two's-complement wrap to 32 bits (Rust release-mode i32 overflow). -/
def wrap32 (z : ℤ) : ℤ :=
  (z + 2 ^ 31) % 2 ^ 32 - 2 ^ 31

/-- Two's-complement wrap to 16 bits (Rust release-mode i16 overflow). -/
def wrap16 (z : ℤ) : ℤ :=
  (z + 2 ^ 15) % 2 ^ 16 - 2 ^ 15

/-- Saturation to the i32 range, the behaviour of Rust's `f32 as i32` cast
after truncation. -/
def i32sat (z : ℤ) : ℤ :=
  max (-(2 ^ 31)) (min (2 ^ 31 - 1) z)

/-- Rust `as usize` on an i32/i64 value: two's-complement reinterpretation, so
a negative value becomes a huge index (and indexing with it panics). -/
def usizeOf (z : ℤ) : ℕ :=
  (z % 2 ^ 64).toNat

/-- i32 division (truncating, like Rust).  The overflowing case
`i32::MIN / -1`, which panics in Rust, is wrapped instead; see the module
comment — the divisor is positive at the one call site (`lines_iter`), where
the quotient is clamped to `[0, HEIGHT]` right away. -/
def i32div (a b : ℤ) : ℤ :=
  wrap32 (Int.tdiv a b)

/-! ## Exact fraction arithmetic for the float pipeline

`Frac` is an executable exact-rational value: numerator and denominator with
the denominator kept positive by construction and no gcd normalisation (gcd
does not reduce in the kernel, plain integer arithmetic does).  It models the
real-number semantics of the f32/f64 pipeline of d3.rs. -/

structure Frac where
  num : ℤ
  den : ℤ
deriving DecidableEq, Repr

/-- Build a fraction, normalising the sign into the numerator. -/
def Frac.mk' (n d : ℤ) : Frac :=
  if d < 0 then ⟨-n, -d⟩ else ⟨n, d⟩

def Frac.ofInt (n : ℤ) : Frac := ⟨n, 1⟩

instance : OfNat Frac n := ⟨Frac.ofInt n⟩

def Frac.add (a b : Frac) : Frac := ⟨a.num * b.den + b.num * a.den, a.den * b.den⟩

def Frac.sub (a b : Frac) : Frac := ⟨a.num * b.den - b.num * a.den, a.den * b.den⟩

def Frac.mul (a b : Frac) : Frac := ⟨a.num * b.num, a.den * b.den⟩

def Frac.div (a b : Frac) : Frac := Frac.mk' (a.num * b.den) (a.den * b.num)

def Frac.neg (a : Frac) : Frac := ⟨-a.num, a.den⟩

instance : Add Frac := ⟨Frac.add⟩
instance : Sub Frac := ⟨Frac.sub⟩
instance : Mul Frac := ⟨Frac.mul⟩
instance : Div Frac := ⟨Frac.div⟩
instance : Neg Frac := ⟨Frac.neg⟩

/-- Comparison; correct whenever both denominators are positive, which holds
for every fraction built by the pipeline. -/
def Frac.blt (a b : Frac) : Bool :=
  decide (a.num * b.den < b.num * a.den)

def Frac.ble (a b : Frac) : Bool :=
  decide (a.num * b.den ≤ b.num * a.den)

def Frac.bmin (a b : Frac) : Frac :=
  if a.ble b then a else b

/-- Truncation toward zero (`f32 as i32` before saturation); `Int.tdiv` is the
truncating division. -/
def Frac.trunc (a : Frac) : ℤ :=
  Int.tdiv a.num a.den

/-- The full Rust `f32 as i32` cast: truncate, then saturate. -/
def Frac.toI32 (a : Frac) : ℤ :=
  i32sat a.trunc

end Build

namespace Build

/-! ## The float pipeline of d3.rs (exact-rational model) -/

/-- A glm `Vec4` of the projection pipeline. -/
structure V4 where
  x : Frac
  y : Frac
  z : Frac
  w : Frac
deriving DecidableEq, Repr

/-- `EPSILON` from d3.rs (`1e-3`), as an exact rational. -/
def EPSILON : Frac := ⟨1, 1000⟩

/-- glm `lerp(l, r, t) = l + t * (r - l)`, componentwise. -/
def lerpV4 (l r : V4) (t : Frac) : V4 :=
  ⟨l.x + (r.x - l.x) * t, l.y + (r.y - l.y) * t,
   l.z + (r.z - l.z) * t, l.w + (r.w - l.w) * t⟩

/-- The plain variant of the `clip!` macro of util.rs on component `y` against
the plane `y = c`: clip when `0 < t < 1`, replacing the endpoint with
`y < c`.  A zero denominator gives a `t` for which both comparisons fail, as
in the source (the float `t` is then infinite or NaN and no clip happens). -/
def clipLowY (l r : V4) (c : Frac) : V4 × V4 :=
  let t := (c - l.y) / (r.y - l.y)
  if Frac.blt 0 t && Frac.blt t 1 then
    let cl := lerpV4 l r t
    if Frac.blt l.y c then (cl, r) else (l, cl)
  else (l, r)

/-- The plain variant of `clip!` on component `x` against `x = c`. -/
def clipLowX (l r : V4) (c : Frac) : V4 × V4 :=
  let t := (c - l.x) / (r.x - l.x)
  if Frac.blt 0 t && Frac.blt t 1 then
    let cl := lerpV4 l r t
    if Frac.blt l.x c then (cl, r) else (l, cl)
  else (l, r)

/-- The `@` variant of `clip!` on component `x` against `x = c`: replaces the
endpoint with `x > c`. -/
def clipHighX (l r : V4) (c : Frac) : V4 × V4 :=
  let t := (c - l.x) / (r.x - l.x)
  if Frac.blt 0 t && Frac.blt t 1 then
    let cl := lerpV4 l r t
    if Frac.blt c l.x then (cl, r) else (l, cl)
  else (l, r)

/-- `util::clip_y(left, right, eps)`: one clip against `y = eps`. -/
def clip_y (l r : V4) (eps : Frac) : V4 × V4 :=
  clipLowY l r eps

/-- `util::clip_x(left, right, eps)`: clip against `x = eps - 1`, then against
`x = 1 - eps`. -/
def clip_x (l r : V4) (eps : Frac) : V4 × V4 :=
  let (l, r) := clipLowX l r (eps - 1)
  clipHighX l r (Frac.ofInt 1 - eps)

/-- `compute_transform(player)` applied to a vertex: the exact inverse of
`translation(pos) * rotation(angle, z)` — i.e. the rotation by the negated
angle after translating by the negated position, which is what
`glm::inverse` computes here in exact arithmetic — followed by the axis
scaling by `(1/10000, 1/10000, 1/(-150000))`.  `sinv` and `cosv` stand for
the f32 values `sin(angle.to_radians())` and `cos(angle.to_radians())`, the
only inputs of the pipeline a rational cannot represent. -/
def clipViewApply (sinv cosv px py pz : Frac) (v : V4) : V4 :=
  let tx := v.x - px * v.w
  let ty := v.y - py * v.w
  let tz := v.z - pz * v.w
  let rx := cosv * tx + sinv * ty
  let ry := -sinv * tx + cosv * ty
  ⟨rx / Frac.ofInt 10000, ry / Frac.ofInt 10000, tz / Frac.ofInt (-150000), v.w⟩

/-- glm `v /= v.y`: all four components are divided. -/
def V4.divY (v : V4) : V4 :=
  ⟨v.x / v.y, v.y / v.y, v.z / v.y, v.w / v.y⟩

/-- A projected point in framebuffer pixel coordinates. -/
abbrev Pt2 := ℤ × ℤ

/-- A vertical segment handed to `render_line`, as a pair of points. -/
abbrev Seg := Pt2 × Pt2

/-- The eight-vertex wall geometry of d3.rs (`struct Geometry`, with the
`extra` payload carried separately where needed). -/
structure Geometry (α : Type) where
  top_left : α
  top_right : α
  bottom_left : α
  bottom_right : α
  in_top_left : α
  in_top_right : α
  in_bottom_left : α
  in_bottom_right : α
deriving DecidableEq, Repr

/-- `compute_wall_glm(map, sector, left, right)`. -/
def computeWallGlm (m : MapData) (sector : Sector) (left right : Wall) :
    Geometry V4 :=
  let cz := Frac.ofInt sector.ceiling_z
  let fz := Frac.ofInt sector.floor_z
  let cfDiff : Frac × Frac :=
    match sectorsGet m left.next_sector with
    | some s => (Frac.ofInt s.ceiling_z - cz, Frac.ofInt s.floor_z - fz)
    | none => (Frac.ofInt 0, Frac.ofInt 0)
  let lx := Frac.ofInt left.x
  let ly := Frac.ofInt left.y
  let rx := Frac.ofInt right.x
  let ry := Frac.ofInt right.y
  let one := Frac.ofInt 1
  { top_left := ⟨lx, ly, cz, one⟩
    top_right := ⟨rx, ry, cz, one⟩
    bottom_left := ⟨lx, ly, fz, one⟩
    bottom_right := ⟨rx, ry, fz, one⟩
    in_top_left := ⟨lx, ly, cz + cfDiff.1, one⟩
    in_top_right := ⟨rx, ry, cz + cfDiff.1, one⟩
    in_bottom_left := ⟨lx, ly, fz + cfDiff.2, one⟩
    in_bottom_right := ⟨rx, ry, fz + cfDiff.2, one⟩ }

/-- `Renderer::apply_viewport_transform(v)` with the viewport `[0, 0, 320, 200]`
set by `Renderer::new`: `px = (0.5 - v.x) * 320`, `py = (0.5 - v.z) * 200`,
each cast with `as i32` (truncate and saturate). -/
def applyViewportTransform (v : V4) : Pt2 :=
  ((Frac.mk' 1 2 - v.x) * Frac.ofInt 320 |>.toI32,
   (Frac.mk' 1 2 - v.z) * Frac.ofInt 200 |>.toI32)

/-- `Renderer::project_wall(map, sector, left, right)`: `none` exactly when
both top vertices fall behind the near plane (`y < EPSILON`); otherwise the
viewport-space geometry together with the `closest` sort key (`extra`). -/
def projectWall (sinv cosv px py pz : Frac) (m : MapData) (sector : Sector)
    (left right : Wall) : Option (Geometry Pt2 × ℤ) :=
  let g := computeWallGlm m sector left right
  let tl := clipViewApply sinv cosv px py pz g.top_left
  let tr := clipViewApply sinv cosv px py pz g.top_right
  if Frac.blt tl.y EPSILON && Frac.blt tr.y EPSILON then none
  else
    let bl := clipViewApply sinv cosv px py pz g.bottom_left
    let br := clipViewApply sinv cosv px py pz g.bottom_right
    let itl := clipViewApply sinv cosv px py pz g.in_top_left
    let itr := clipViewApply sinv cosv px py pz g.in_top_right
    let ibl := clipViewApply sinv cosv px py pz g.in_bottom_left
    let ibr := clipViewApply sinv cosv px py pz g.in_bottom_right
    let (tl, tr) := clip_y tl tr EPSILON
    let (bl, br) := clip_y bl br EPSILON
    let (itl, itr) := clip_y itl itr EPSILON
    let (ibl, ibr) := clip_y ibl ibr EPSILON
    let closest := (Frac.bmin (tl.y * tl.y + tl.x * tl.x)
      (tr.y * tr.y + tr.x * tr.x) * Frac.ofInt 100000).toI32
    let tl := tl.divY
    let tr := tr.divY
    let bl := bl.divY
    let br := br.divY
    let itl := itl.divY
    let itr := itr.divY
    let ibl := ibl.divY
    let ibr := ibr.divY
    let (tl, tr) := clip_x tl tr EPSILON
    let (bl, br) := clip_x bl br EPSILON
    let (itl, itr) := clip_x itl itr EPSILON
    let (ibl, ibr) := clip_x ibl ibr EPSILON
    some ({ top_left := applyViewportTransform tl
            top_right := applyViewportTransform tr
            bottom_left := applyViewportTransform bl
            bottom_right := applyViewportTransform br
            in_top_left := applyViewportTransform itl
            in_top_right := applyViewportTransform itr
            in_bottom_left := applyViewportTransform ibl
            in_bottom_right := applyViewportTransform ibr }, closest)

/-- `lines_iter(geo, interval)`: the vertical columns spanning the projected
wall, clipped to `[0, WIDTH)` and filtered by the horizontal `interval`.
The enumeration index `i` counts the columns of the unfiltered range, as in
the source (`enumerate` precedes `filter`).  The interpolation arithmetic is
i32 arithmetic, hence the explicit wraps; the divisor `d` is only consulted
for a nonempty range, where `x0 < x1` forces `top_left.x < top_right.x` so
that the original subtraction was positive. -/
def linesIter (geo : Geometry Pt2) (intr : Interval) : List (ℕ × Seg × Seg) :=
  let d := wrap32 (geo.top_right.1 - geo.top_left.1)
  let w : ℤ := (WIDTH : ℤ)
  let x0 := min (max geo.top_left.1 0) w
  let x1 := min (max geo.top_right.1 0) w
  (((List.range (x1 - x0).toNat).map (fun k => ((k, x0 + (k : ℤ)) : ℕ × ℤ))).filter
    (fun p => contains intr p.2)).map
    (fun p =>
      let n := wrap32 (p.2 - geo.top_left.1)
      let h : ℤ := (HEIGHT : ℤ)
      let wall_y0 :=
        min (max (wrap32 (geo.top_left.2 +
          i32div (wrap32 (n * wrap32 (geo.top_right.2 - geo.top_left.2))) d)) 0) h
      let wall_y1 :=
        min (max (wrap32 (geo.bottom_left.2 +
          i32div (wrap32 (n * wrap32 (geo.bottom_right.2 - geo.bottom_left.2))) d)) 0) h
      let sector_y0 :=
        min (max (wrap32 (geo.in_top_left.2 +
          i32div (wrap32 (n * wrap32 (geo.in_top_right.2 - geo.in_top_left.2))) d)) 0) h
      let sector_y1 :=
        min (max (wrap32 (geo.in_bottom_left.2 +
          i32div (wrap32 (n * wrap32 (geo.in_bottom_right.2 - geo.in_bottom_left.2))) d)) 0) h
      (p.1, ((p.2, wall_y0), (p.2, wall_y1)),
        ((p.2, max sector_y0 wall_y0), (p.2, min sector_y1 wall_y1))))

end Build

namespace Build

/-! ## The renderer proper (src/render/src/d3.rs) -/

/-- Colour constants of d3.rs (the non-wasm branch). -/
def BLACK_COLOR : ℕ := 0x000000

def WALL_COLOR : ℕ := 0x888888

def CEILING_COLOR : ℕ := 0x444444

def FLOOR_COLOR : ℕ := 0x2222ff

def PORTAL_FRAME_COLOR : ℕ := 0xaa33aa

/-- One framebuffer store `frame[y][x] = color`, recorded as `(x, y, color)`. -/
abbrev Write := ℤ × ℤ × ℕ

/-- `Renderer::render_line(segment, color, frame)`.  Returns the list of pixel
stores, in order; `none` models a panic: the `x0 = x1` assertion, the
coverage indexing inside `get_column` for an out-of-range column, or an
out-of-bounds framebuffer row (`frame[y][x]` with `y` outside `[0, 200)`).
The coverage itself is not modified. -/
def renderLine (cov : Coverage) (seg : Seg) (color : ℕ) : Option (List Write) :=
  let ((x0, y0), (x1, y1)) := seg
  if x0 = x1 then
    match cov.get_column (usizeOf x0) with
    | none => none
    | some cur =>
      match intersect cur (interval y0 y1) with
      | some (a, b) =>
        if a < b ∧ (a < 0 ∨ (HEIGHT : ℤ) < b) then none
        else some ((List.range (b - a).toNat).map (fun k => (x0, a + (k : ℤ), color)))
      | none => some []
  else none

/-- The body of the `render_solid_wall` loop for one `lines_iter` item: the
five `render_line` calls (wall band, bottom border, top border, ceiling,
floor), then the coverage update to the empty interval. -/
def solidWallItem (cov : Coverage) (it : ℕ × Seg × Seg) :
    Option (Coverage × List Write) := do
  let (i, wall, _) := it
  let color := if i = 0 then BLACK_COLOR else WALL_COLOR
  let w1 ← renderLine cov wall color
  let w2 ← renderLine cov ((wall.2.1, wall.2.2 - 1), wall.2) BLACK_COLOR
  let w3 ← renderLine cov (wall.1, (wall.1.1, wall.1.2 + 1)) BLACK_COLOR
  let w4 ← renderLine cov ((wall.1.1, 0), wall.1) CEILING_COLOR
  let w5 ← renderLine cov (wall.2, (wall.2.1, (HEIGHT : ℤ))) FLOOR_COLOR
  let cov' ← cov.intersect_column (usizeOf wall.1.1) none
  pure (cov', w1 ++ w2 ++ w3 ++ w4 ++ w5)

/-- `Renderer::render_solid_wall(geometry, interval, frame)`, as the fold of
`solidWallItem` over the `lines_iter` items. -/
def solidWallGo (cov : Coverage) : List (ℕ × Seg × Seg) →
    Option (Coverage × List Write)
  | [] => some (cov, [])
  | it :: rest => do
    let (cov1, w) ← solidWallItem cov it
    let (cov2, ws) ← solidWallGo cov1 rest
    pure (cov2, w ++ ws)

def renderSolidWall (cov : Coverage) (geo : Geometry Pt2) (intr : Interval) :
    Option (Coverage × List Write) :=
  solidWallGo cov (linesIter geo intr)

/-- The body of the `render_portal_wall` loop for one `lines_iter` item: the
two portal borders, the optional top/bottom frames with their borders, the
ceiling and floor bands, then the coverage update to the portal hole
`interval(portal_top + 1, portal_bottom - 1)`. -/
def portalWallItem (htf hbf : Bool) (cov : Coverage) (it : ℕ × Seg × Seg) :
    Option (Coverage × List Write) := do
  let (i, wall, portal) := it
  let w1 ← renderLine cov ((portal.2.1, portal.2.2 - 1), portal.2) BLACK_COLOR
  let w2 ← renderLine cov (portal.1, (portal.1.1, portal.1.2 + 1)) BLACK_COLOR
  let wf ←
    if htf || hbf then do
      let wt ←
        if htf then do
          let color := if i = 0 then BLACK_COLOR else WALL_COLOR
          let a ← renderLine cov (wall.1, portal.1) color
          let b ← renderLine cov (wall.1, (wall.1.1, wall.1.2 + 1)) BLACK_COLOR
          pure (a ++ b)
        else pure []
      let wb ←
        if hbf then do
          let color := if i = 0 then BLACK_COLOR else PORTAL_FRAME_COLOR
          let a ← renderLine cov (portal.2, wall.2) color
          let b ← renderLine cov ((wall.2.1, wall.2.2 - 1), wall.2) BLACK_COLOR
          pure (a ++ b)
        else pure []
      pure (wt ++ wb)
    else pure []
  let w3 ← renderLine cov ((wall.1.1, 0), wall.1) CEILING_COLOR
  let w4 ← renderLine cov (wall.2, (wall.2.1, (HEIGHT : ℤ))) FLOOR_COLOR
  let cov' ← cov.intersect_column (usizeOf wall.1.1)
    (interval (portal.1.2 + 1) (portal.2.2 - 1))
  pure (cov', w1 ++ w2 ++ wf ++ w3 ++ w4)

/-- The fold of `portalWallItem`, carrying the `portal_interval` min/max pair
and the `drawn_pixels` flag of `render_portal_wall`. -/
def portalWallGo (htf hbf : Bool) (cov : Coverage) (pi0 pi1 : ℤ) (drawn : Bool) :
    List (ℕ × Seg × Seg) → Option (Coverage × List Write × ℤ × ℤ × Bool)
  | [] => some (cov, [], pi0, pi1, drawn)
  | it :: rest => do
    let (cov1, w) ← portalWallItem htf hbf cov it
    let x := it.2.1.1.1
    let (cov2, ws, a, b, dr) ← portalWallGo htf hbf cov1 (min pi0 x) (max pi1 (x + 1))
      true rest
    pure (cov2, w ++ ws, a, b, dr)

/-- `Renderer::render_portal_wall(geometry, interval, frame)`: the painted
columns, the updated coverage, and the returned horizontal extent (`none`
when no column was visited, the `drawn_pixels` hack). -/
def renderPortalWall (cov : Coverage) (geo : Geometry Pt2) (intr : Interval) :
    Option (Coverage × List Write × Interval) := do
  let htf := decide (geo.top_left.2 < geo.in_top_left.2)
  let hbf := decide (geo.bottom_left.2 > geo.in_bottom_left.2)
  let (cov', ws, a, b, drawn) ←
    portalWallGo htf hbf cov (WIDTH : ℤ) 0 false (linesIter geo intr)
  pure (cov', ws, if drawn then interval a b else none)

/-- A BFS queue node: `(sector_id, horizontal clip interval)`. -/
abbrev Node := ℤ × Interval

/-- The wall loop of `Renderer::render` over the projected, sorted walls of one
sector: solid walls render and update coverage; portal walls additionally
produce a push when the intersection of their painted extent with the
current interval is non-empty.  Pushes are returned in wall order; `render`
pushes them onto the back of the queue in this order, so with the queue kept
back-first the new queue is their reverse prepended to the rest. -/
def processWalls (intr : Interval) (cov : Coverage) :
    List (Wall × Geometry Pt2) → Option (Coverage × List Write × List Node)
  | [] => some (cov, [], [])
  | (w, geo) :: rest =>
    if w.next_sector = -1 then do
      let (cov1, wr) ← renderSolidWall cov geo intr
      let (cov2, wr2, ps) ← processWalls intr cov1 rest
      pure (cov2, wr ++ wr2, ps)
    else do
      let (cov1, wr, res) ← renderPortalWall cov geo intr
      let clip := intersect res intr
      let (cov2, wr2, ps) ← processWalls intr cov1 rest
      pure (cov2, wr ++ wr2,
        if clip.isSome then (w.next_sector, clip) :: ps else ps)

/-- One iteration body of the `while` loop of `Renderer::render` for the popped
node `(sid, intr)`: fetch the sector and its walls (`unwrap` panics give
`none`), project and sort them front to back (`sort_by_cached_key` is a
stable sort, modelled by `insertionSort` on the `closest` key), run the wall
loop, and build the new queue. -/
def processSector (sinv cosv px py pz : Frac) (m : MapData) (sid : ℤ)
    (intr : Interval) (cov : Coverage) (rest : List Node) :
    Option (List Node × Coverage × List Write) := do
  let (sector, chain) ← sectorWalls m sid
  let projected := chain.filterMap
    (fun it => (projectWall sinv cosv px py pz m sector it.2.1 it.2.2).map
      (fun p => (it.2.1, p)))
  let sorted := List.insertionSort (fun a b => a.2.2 ≤ b.2.2) projected
  let (cov', wr, ps) ← processWalls intr cov (sorted.map (fun a => (a.1, a.2.1)))
  pure (ps.reverse ++ rest, cov', wr)

/-- Result of running the render loop with a given amount of fuel. -/
inductive RunResult
  | ok : List Node × Coverage × List Write → RunResult
  | crash : RunResult
  | fuelOut : RunResult
deriving DecidableEq, Repr

/-- The `while !self.pixel_coverage.is_full()` loop of `Renderer::render`.  The
queue is kept back-first (`pop_back` is the head, `push_back` is `cons`).
`crash` models a Rust panic inside the body; `fuelOut` means the given
number of iterations did not finish the loop. -/
def renderLoop (sinv cosv px py pz : Frac) (m : MapData) :
    ℕ → List Node → Coverage → List Write → RunResult
  | 0, _, _, _ => .fuelOut
  | n + 1, queue, cov, writes =>
    if cov.is_full then .ok (queue, cov, writes)
    else
      match queue with
      | [] => .ok (queue, cov, writes)
      | (sid, intr) :: rest =>
        match processSector sinv cosv px py pz m sid intr cov rest with
        | none => .crash
        | some (q', cov', wr) =>
          renderLoop sinv cosv px py pz m n q' cov' (writes ++ wr)

/-- `Renderer::render(map, frame)` on a fresh renderer: coverage reset, queue
cleared, the player sector pushed with the full-width interval, then the
loop.  `sinv`/`cosv` stand for `sin`/`cos` of
`map.player.angle.to_radians()`, which `compute_transform` feeds into the
view matrix and which are the only non-rational inputs. -/
def render (sinv cosv : Frac) (m : MapData) (fuel : ℕ) : RunResult :=
  renderLoop sinv cosv (Frac.ofInt m.player.pos_x) (Frac.ofInt m.player.pos_y)
    (Frac.ofInt m.player.pos_z) m fuel
    [(m.player.sector, interval 0 (WIDTH : ℤ))] Coverage.new []

/-- The write log of a completed run (empty for `crash`/`fuelOut`). -/
def writesOf : RunResult → List Write
  | .ok (_, _, w) => w
  | _ => []

end Build

namespace Build

/-! ## Movement step (src/render/src/controller.rs) and angle conversion
(src/map/src/player.rs) -/

/-- `Angle::to_radians` modelled over the reals: the f64 computation
`(self.0 & 0x7ff) as f64 / 2047.0 * 2π − π/2` (then cast to f32), with the
bit mask `& 0x7ff` written as the nonnegative residue mod 2048, which is
what masking the low 11 bits of a two's-complement value computes. -/
noncomputable def toRadiansR (a : ℤ) : ℝ :=
  ((a % 2048 : ℤ) : ℝ) / 2047 * (2 * Real.pi) - Real.pi / 2

/-- `UpdateOpts` from controller.rs. -/
structure UpdateOpts where
  forwards : ℤ
  sideways : ℤ
  rotate : ℤ
deriving DecidableEq, Repr

/-- Truncation toward zero of a field value, the `f32 as i32` rounding. -/
def truncF {α : Type} [LinearOrderedField α] [FloorRing α] (x : α) : ℤ :=
  if 0 ≤ x then ⌊x⌋ else ⌈x⌉

/-- `intrsect_movement_with_wall` from controller.rs.  The products are i32
multiplications of map coordinates; they are modelled exactly (their
wrapping would only matter for coordinates near the i32 boundary, which no
claim is about). -/
def intrsect_movement_with_wall (left right : Wall) (p t : ℤ × ℤ) : Bool :=
  let lx := left.x
  let ly := left.y
  let rx := right.x
  let ry := right.y
  let num0 := (p.1 - lx) * (t.2 - p.2) - (t.1 - p.1) * (p.2 - ly)
  let num1 := (rx - lx) * (p.2 - ly) - (p.1 - lx) * (ry - ly)
  let den := (rx - lx) * (t.2 - p.2) - (t.1 - p.1) * (ry - ly)
  decide (num0.natAbs ≤ den.natAbs) && decide (num1.natAbs ≤ den.natAbs) &&
    decide (num0.sign = den.sign) && decide (num1.sign = den.sign)

/-- `update_player(map, opts)` from controller.rs.  `sinv`/`cosv` stand for
the f32 values `sin`/`cos` of `map.player.angle.to_radians()` after the
rotation update; they are parameters of the embedding because the claims
are about the displacement formula built from them, over any ordered field
(`ℝ` for exact trig values, `ℚ` for executable witnesses).  `none` models
the `unwrap` panic when the player sector is invalid or its wall chain does
not close.  The position additions are i32 additions, modelled exactly. -/
def update_player {α : Type} [LinearOrderedField α] [FloorRing α]
    (sinv cosv : α) (m : MapData) (opts : UpdateOpts) : Option MapData := do
  let angle' := if opts.rotate ≠ 0 then wrap16 (m.player.angle + opts.rotate)
    else m.player.angle
  let x0 : ℤ := 0
  let y0 : ℤ := 0
  let xy1 : ℤ × ℤ :=
    if opts.forwards ≠ 0 then
      (x0 + i32sat (truncF (-sinv * (opts.forwards : α))),
       y0 + i32sat (truncF (cosv * (opts.forwards : α))))
    else (x0, y0)
  let xy : ℤ × ℤ :=
    if opts.sideways ≠ 0 then
      (xy1.1 - i32sat (truncF (cosv * (opts.sideways : α))),
       xy1.2 - i32sat (truncF (sinv * (opts.sideways : α))))
    else xy1
  let (_, chain) ← sectorWalls m m.player.sector
  let px := m.player.pos_x
  let py := m.player.pos_y
  let tx := px + xy.1
  let ty := py + xy.2
  let portals := chain.filter (fun it => it.2.1.next_sector ≠ -1)
  let newSector :=
    match portals.find?
      (fun it => intrsect_movement_with_wall it.2.1 it.2.2 (px, py) (tx, ty)) with
    | some it => it.2.1.next_sector
    | none => m.player.sector
  pure { m with player := { m.player with
    pos_x := px + xy.1
    pos_y := py + xy.2
    angle := angle'
    sector := newSector } }

end Build

namespace Build

/-! ## Concrete maps used by counterexamples and witnesses -/

/-- A map with a single sector whose front wall is a portal leading back into
the same sector (`next_sector = 0`, a value every index-validity condition
accepts).  The player stands at the origin with raw angle 0, whose exact
trig values are `sin = -1`, `cos = 0`.  Rendering it never terminates: the
visible portal wall keeps re-pushing its own sector with the same interval
while the portal hole rows of its columns are never painted. -/
def mapSelfPortal : MapData :=
  { sectors := [{ wallptr := 0, wallnum := 2, ceiling_z := -9000, floor_z := 12000 }]
    walls := [{ x := 1000, y := -10, point2 := 1, next_sector := 0 },
              { x := 1000, y := 0, point2 := 0, next_sector := -1 }]
    player := { pos_x := 0, pos_y := 0, pos_z := 0, angle := 0, sector := 0 } }

/-- The same room with both walls solid; rendering terminates after one
sector visit, and the single visible column exhibits the double writes of
the wall band and its one-pixel black borders. -/
def mapSolid : MapData :=
  { sectors := [{ wallptr := 0, wallnum := 2, ceiling_z := -9000, floor_z := 12000 }]
    walls := [{ x := 1000, y := -3, point2 := 1, next_sector := -1 },
              { x := 1000, y := 0, point2 := 0, next_sector := -1 }]
    player := { pos_x := 0, pos_y := 0, pos_z := 0, angle := 0, sector := 0 } }

/-- A trivial one-sector, one-wall map (the wall loop is the single wall whose
`point2` points back at itself); used by movement-step witnesses. -/
def mapTrivial : MapData :=
  { sectors := [{ wallptr := 0, wallnum := 1, ceiling_z := -4000, floor_z := 0 }]
    walls := [{ x := 1000, y := -1000, point2 := 0, next_sector := -1 }]
    player := { pos_x := 0, pos_y := 0, pos_z := 0, angle := 0, sector := 0 } }

end Build

namespace Build

/-! ## Predicates used by the theorems -/

/-- The validity conditions of claim C3, plus the wall-loop closure the claim
leaves implicit: the player sector index is in range, every sector's wall
chain is panic-free and returns to its first wall (so `SectorWalls` is a
finite iterator), and every wall's `next_sector` is `-1` or in range. -/
def MapValid (m : MapData) : Prop :=
  0 ≤ m.player.sector ∧ m.player.sector < m.sectors.length ∧
    (∀ i : ℕ, i < m.sectors.length → (sectorWalls m (i : ℤ)).isSome = true) ∧
    ∀ w ∈ m.walls, w.next_sector = -1 ∨
      (0 ≤ w.next_sector ∧ w.next_sector < m.sectors.length)

instance (m : MapData) : Decidable (MapValid m) := by
  unfold MapValid
  infer_instance

/-- A rank function witnessing that the portal graph is acyclic: along every
portal wall of every sector, the rank strictly decreases. -/
def RankOk (m : MapData) (rank : ℤ → ℕ) : Prop :=
  ∀ i : ℕ, i < m.sectors.length →
    ∀ sec chain, sectorWalls m (i : ℤ) = some (sec, chain) →
      ∀ it ∈ chain, it.2.1.next_sector ≠ -1 →
        rank it.2.1.next_sector < rank (i : ℤ)

/-- Iteration budget for a BFS node of a given rank: a node of rank `r + 1`
pops once and pushes at most `K` nodes of rank at most `r`. -/
def Ffn (K : ℕ) : ℕ → ℕ
  | 0 => 1
  | r + 1 => 1 + K * Ffn K r

/-- Termination measure of a queue: the summed budgets of its nodes. -/
def measureQ (rank : ℤ → ℕ) (K : ℕ) (q : List Node) : ℕ :=
  (q.map (fun nd => Ffn K (rank nd.1))).sum

/-- Queue sanity: every queued sector id is in range. -/
def QueueOk (m : MapData) (q : List Node) : Prop :=
  ∀ nd ∈ q, 0 ≤ nd.1 ∧ nd.1 < m.sectors.length

/-- Coverage sanity: 320 columns whose `some` values lie within `[0, 200]`. -/
def CovOk (c : Coverage) : Prop :=
  c.columns.length = WIDTH ∧
    ∀ u ∈ c.columns, ∀ a b : ℤ, u = some (a, b) → 0 ≤ a ∧ b ≤ (HEIGHT : ℤ)

/-- The stored remaining interval of screen column `x`. -/
def colSet (c : Coverage) (x : ℤ) : Interval :=
  c.columns.getD (usizeOf x) none

/-- Row `y` of column `x` is still uncovered (lies in the stored interval). -/
def covMem (c : Coverage) (x y : ℤ) : Prop :=
  contains (colSet c x) y = true

/-- Pointwise inclusion of remaining coverage. -/
def CovLe (c c' : Coverage) : Prop :=
  ∀ x y : ℤ, covMem c x y → covMem c' x y

/-- One wall-renderer column pass: the solid flavour (`render_solid_wall`'s
loop body) when `kind` is true, the portal flavour otherwise. -/
def passItem (kind htf hbf : Bool) (cov : Coverage) (it : ℕ × Seg × Seg) :
    Option (Coverage × List Write) :=
  if kind then solidWallItem cov it else portalWallItem htf hbf cov it

/-- Instance-search helper: equality of render-loop states is decidable (the
automatic search stalls on the triple product behind the abbreviations). -/
instance : DecidableEq (List Node × Coverage × List Write) :=
  fun a b => instDecidableEqProd a b

/-- The coverage state of `mapSelfPortal` after its first BFS iteration; the
loop state repeats from here on. -/
def covSP : Coverage :=
  match processSector (-1) 0 0 0 0 mapSelfPortal 0 (interval 0 (WIDTH : ℤ))
      Coverage.new [] with
  | some r => r.2.1
  | none => Coverage.new

end Build

namespace Build

/-- A two-sector map: the visible wall of sector 0 is a portal into sector 1,
whose ceiling is lower, so the portal is rendered with a top frame.  The
frame band and the one-pixel black border drawn over its first row write
the same framebuffer pixel twice within a single wall pass. -/
def mapPortalFrame : MapData :=
  { sectors := [{ wallptr := 0, wallnum := 2, ceiling_z := -9000, floor_z := 12000 },
                { wallptr := 2, wallnum := 1, ceiling_z := -7275, floor_z := 12000 }]
    walls := [{ x := 1000, y := -3, point2 := 1, next_sector := 1 },
              { x := 1000, y := 0, point2 := 0, next_sector := -1 },
              { x := -1000, y := 0, point2 := 2, next_sector := -1 }]
    player := { pos_x := 0, pos_y := 0, pos_z := 0, angle := 0, sector := 0 } }

end Build

namespace Build

/-- Shape facts every `lines_iter` item enjoys: the wall segment is vertical,
the portal segment shares its column, the column index is an in-range
screen column, and the portal rows are nested inside the wall rows. -/
def ItemOk (it : ℕ × Seg × Seg) : Prop :=
  it.2.1.1.1 = it.2.1.2.1 ∧ it.2.2.1.1 = it.2.1.1.1 ∧ it.2.2.2.1 = it.2.1.1.1 ∧
    0 ≤ it.2.1.1.1 ∧ it.2.1.1.1 < (WIDTH : ℤ) ∧
    it.2.1.1.2 ≤ it.2.2.1.2 ∧ it.2.2.2.2 ≤ it.2.1.2.2

/-- The trivial map with the player turned to raw angle 512 (whose exact trig
values are `sin(π/4094)` and `cos(π/4094)`). -/
def mapAngle512 : MapData :=
  { sectors := [{ wallptr := 0, wallnum := 1, ceiling_z := -4000, floor_z := 0 }]
    walls := [{ x := 1000, y := -1000, point2 := 0, next_sector := -1 }]
    player := { pos_x := 0, pos_y := 0, pos_z := 0, angle := 512, sector := 0 } }

/-! ## Theorems

Helper lemmas come first; the claim theorems (named `claim_C*`) follow, each
stating one claim of the specification review. -/

/-- Membership characterisation of `intersect`: helper form. -/
theorem contains_intersect (u v : Interval) (x : ℤ) :
    contains (intersect u v) x = true ↔
      contains u x = true ∧ contains v x = true := by
  cases u with
  | none => simp [intersect, contains]
  | some a =>
    cases v with
    | none => simp [intersect, contains]
    | some b =>
      rcases a with ⟨a1, a2⟩
      rcases b with ⟨b1, b2⟩
      simp only [intersect, intersectSorted]
      split_ifs with h1 h2 h3 <;>
        simp [contains, decide_eq_true_eq] <;> omega

/-- The `some` values produced by `intersect` lie within both arguments'
value bounds. -/
theorem intersect_some_sub {u v r : ℤ × ℤ}
    (h : intersect (some u) (some v) = some r) :
    u.1 ≤ r.1 ∧ r.2 ≤ u.2 ∧ v.1 ≤ r.1 ∧ r.2 ≤ v.2 := by
  rcases u with ⟨u1, u2⟩
  rcases v with ⟨v1, v2⟩
  simp only [intersect, intersectSorted] at h
  split_ifs at h with h1 h2 h3 <;>
    · injection h with h'
      subst h'
      refine ⟨?_, ?_, ?_, ?_⟩ <;> simp <;> omega

/-- `intersect` with a `none` argument is `none`. -/
theorem intersect_none_left (v : Interval) : intersect none v = none := by
  cases v <;> rfl

theorem intersect_none_right (u : Interval) : intersect u none = none := by
  cases u <;> rfl

end Build

namespace Build

/-- C5 (counterexample): at `A = [0, 4)`, `B = Some([1, 1])` the code returns
the degenerate `Some([1, 1])`, not the empty interval the reference
definition prescribes for a result with `r ≤ l` (algo.rs's own test
`intersect` pins this behaviour, so the code is intentional). -/
theorem claim_C5_counterexample :
    intersect (some (0, 4)) (some (1, 1)) = some (1, 1) ∧
      intersectSpec (some (0, 4)) (some (1, 1)) = none := by
  decide

/-- C5 (amended): for intervals that are `None` or proper (`l < r`),
`intersect` agrees with the reference definition
`[max(A.l, B.l), min(A.r, B.r))`, returning `None` whenever the result has
`r ≤ l`; a degenerate `Some([a, b])` input with `b ≤ a` may instead yield a
degenerate `Some` result (which still denotes the empty set). -/
theorem claim_C5 (u v : Interval) (hu : ProperInterval u) (hv : ProperInterval v) :
    intersect u v = intersectSpec u v := by
  cases u with
  | none => cases v <;> rfl
  | some a =>
    cases v with
    | none => rfl
    | some b =>
      rcases a with ⟨a1, a2⟩
      rcases b with ⟨b1, b2⟩
      unfold ProperInterval at hu hv
      simp only at hu hv
      simp only [intersect, intersectSorted, intersectSpec, min_def, max_def]
      split_ifs <;>
        first
          | rfl
          | omega
          | (simp_all [Prod.ext_iff] <;> omega)

/-- C5 (witness): the amended theorem at the proper intervals `[0, 2)` and
`[1, 3)`. -/
theorem claim_C5_witness :
    ProperInterval (some (0, 2)) ∧ ProperInterval (some (1, 3)) ∧
      intersect (some (0, 2)) (some (1, 3)) = intersectSpec (some (0, 2)) (some (1, 3)) :=
  ⟨by decide, by decide, claim_C5 (some (0, 2)) (some (1, 3)) (by decide) (by decide)⟩

/-- C9 (counterexample): idempotence fails on the degenerate interval
`Some([0, 0])`, whose self-intersection is `None`. -/
theorem claim_C9_counterexample :
    intersect (some (0, 0)) (some (0, 0)) ≠ some (0, 0) := by
  decide

/-- C9 (amended): intersection is idempotent on intervals that are `None` or
proper (`l < r`); for a degenerate `Some([a, b])` with `b ≤ a` the
self-intersection collapses to `None` instead. -/
theorem claim_C9 (u : Interval) (hu : ProperInterval u) :
    intersect u u = u := by
  cases u with
  | none => rfl
  | some a =>
    rcases a with ⟨a1, a2⟩
    unfold ProperInterval at hu
    simp only at hu
    simp only [intersect, intersectSorted]
    split_ifs <;> simp_all [Prod.ext_iff, min_def] <;> omega

/-- C9 (witness): the amended theorem at the proper interval `[0, 1)`. -/
theorem claim_C9_witness :
    ProperInterval (some (0, 1)) ∧ intersect (some (0, 1)) (some (0, 1)) = some (0, 1) :=
  ⟨by decide, claim_C9 (some (0, 1)) (by decide)⟩

/-- C10 (confirmed): point membership in `intersect(u, v)` is exactly joint
membership in `u` and `v`, including in the degenerate-`Some` cases. -/
theorem claim_C10 (u v : Interval) (x : ℤ) :
    contains (intersect u v) x = true ↔
      contains u x = true ∧ contains v x = true :=
  contains_intersect u v x

end Build

namespace Build

/-- Unfolding of `countSome` over cons. -/
theorem countSome_cons (a : Interval) (t : List Interval) :
    countSome (a :: t) = (if a.isSome then 1 else 0) + countSome t := by
  simp only [countSome, List.filter]
  cases h : a.isSome <;> simp [h] <;> omega

/-- Replacing an entry by one of equal `isSome` status keeps the count. -/
theorem countSome_set_same (l : List Interval) (i : ℕ) (v : Interval)
    (hi : i < l.length) (hs : (l.get ⟨i, hi⟩).isSome = v.isSome) :
    countSome (l.set i v) = countSome l := by
  induction l generalizing i with
  | nil => simp at hi
  | cons a t ih =>
    cases i with
    | zero =>
      simp only [List.get] at hs
      simp [List.set, countSome_cons, hs]
    | succ j =>
      simp only [List.length_cons, Nat.succ_lt_succ_iff] at hi
      simp only [List.get] at hs
      simp [List.set, countSome_cons, ih j _ hs]

/-- Emptying a non-empty entry decrements the count by one. -/
theorem countSome_set_none (l : List Interval) (i : ℕ)
    (hi : i < l.length) (hs : (l.get ⟨i, hi⟩).isSome = true) :
    countSome (l.set i none) + 1 = countSome l := by
  induction l generalizing i with
  | nil => simp at hi
  | cons a t ih =>
    cases i with
    | zero =>
      simp only [List.get] at hs
      simp [List.set, countSome_cons, hs]
      omega
    | succ j =>
      simp only [List.length_cons, Nat.succ_lt_succ_iff] at hi
      simp only [List.get] at hs
      have := ih j hi hs
      simp [List.set, countSome_cons]
      omega

/-- `countSome` of a replicated `some` entry. -/
theorem countSome_replicate_some (n : ℕ) (x : ℤ × ℤ) :
    countSome (List.replicate n (some x)) = n := by
  induction n with
  | zero => rfl
  | succ k ih =>
    simp [List.replicate, countSome_cons, ih]
    omega

/-- `countSome` after overwriting every entry with a `some` value. -/
theorem countSome_map_const_some (l : List Interval) (x : ℤ × ℤ) :
    countSome (l.map (fun _ => some x)) = l.length := by
  induction l with
  | nil => rfl
  | cons a t ih =>
    simp [countSome_cons, ih, countSome_replicate_some]
    omega

/-- Core invariant of claim C4, restricted to the reachable states: the
`non_empty` field counts the `some`-valued columns, and the column count is
the frame width. -/
theorem reachNS_inv {c : Coverage} (h : ReachNS c) :
    c.columns.length = WIDTH ∧ c.non_empty = countSome c.columns := by
  induction h with
  | new =>
    refine ⟨by simp [Coverage.new], ?_⟩
    show WIDTH = countSome (List.replicate WIDTH (some (0, (HEIGHT : ℤ))))
    rw [countSome_replicate_some]
  | reset h ih =>
    refine ⟨by simpa [Coverage.reset] using ih.1, ?_⟩
    show WIDTH = countSome ((_ : Coverage).columns.map (fun _ => some (0, (HEIGHT : ℤ))))
    rw [countSome_map_const_some]
    exact ih.1.symm
  | @icol c c' col i h heq ih =>
    rcases ih with ⟨hlen, hcnt⟩
    unfold Coverage.intersect_column at heq
    split_ifs at heq with hfull hcol
    · cases heq
      exact ⟨hlen, hcnt⟩
    · simp only [Option.some.injEq] at heq
      subst heq
      refine ⟨by simpa using hlen, ?_⟩
      show (if (c.columns.get ⟨col, hcol⟩).isSome &&
          (intersect (c.columns.get ⟨col, hcol⟩) i).isNone then c.non_empty - 1
          else c.non_empty) =
        countSome (c.columns.set col (intersect (c.columns.get ⟨col, hcol⟩) i))
      by_cases husome : (c.columns.get ⟨col, hcol⟩).isSome = true
      · by_cases hvnone : (intersect (c.columns.get ⟨col, hcol⟩) i).isNone = true
        · have hvn : intersect (c.columns.get ⟨col, hcol⟩) i = none :=
            Option.isNone_iff_eq_none.mp hvnone
          have hdec := countSome_set_none c.columns col hcol husome
          rw [hvn, husome]
          simp only [Option.isNone_none, Bool.and_true, if_true]
          omega
        · have hvs : (intersect (c.columns.get ⟨col, hcol⟩) i).isSome = true := by
            cases hv : intersect (c.columns.get ⟨col, hcol⟩) i
            · exact absurd (by rw [hv]; rfl) hvnone
            · rfl
          have hsame := countSome_set_same c.columns col
            (intersect (c.columns.get ⟨col, hcol⟩) i) hcol (by rw [husome, hvs])
          rw [hsame, husome]
          rw [if_neg (by simp only [Bool.true_and]; exact hvnone)]
          exact hcnt
      · have hun : c.columns.get ⟨col, hcol⟩ = none :=
          Option.not_isSome_iff_eq_none.mp husome
        have hvn : intersect (c.columns.get ⟨col, hcol⟩) i = none := by
          rw [hun]
          exact intersect_none_left i
        have hsame := countSome_set_same c.columns col
          (intersect (c.columns.get ⟨col, hcol⟩) i) hcol
          (by rw [hun, intersect_none_left])
        rw [hsame, hun]
        simp only [Option.isSome_none, Bool.false_and, if_false]
        exact hcnt

end Build

namespace Build

/-- C4 (counterexample): after `set_full_coverage` on a fresh coverage the
counter no longer matches the columns: `non_empty` is forced to 0 (and
`is_full` reports true) while all 320 columns are still non-empty. -/
theorem claim_C4_counterexample :
    (Coverage.new.set_full_coverage).non_empty = 0 ∧
      countSome (Coverage.new.set_full_coverage).columns = WIDTH ∧
      (Coverage.new.set_full_coverage).is_full = true ∧
      (Coverage.new.set_full_coverage).non_empty ≠
        countSome (Coverage.new.set_full_coverage).columns := by
  have hc : countSome (Coverage.new.set_full_coverage).columns = WIDTH :=
    countSome_replicate_some WIDTH (0, (HEIGHT : ℤ))
  refine ⟨rfl, hc, rfl, ?_⟩
  rw [hc]
  decide

/-- C4 (amended): the invariant holds for `new`, `reset` and `intersect_column`
— `non_empty` equals the number of columns whose interval value is non-empty
(`some`-valued; a degenerate `Some([a, b])` with `b ≤ a` counts as
non-empty), and `is_full` holds iff every column is `None` — but
`set_full_coverage` breaks it: it zeroes the counter while leaving the
columns untouched, so after it `is_full` can be true with non-empty
columns (the renderer never reads the columns again once `is_full` holds). -/
theorem claim_C4 (c : Coverage) (h : ReachNS c) :
    c.non_empty = countSome c.columns ∧
      (c.is_full = true ↔ ∀ u ∈ c.columns, u = none) := by
  obtain ⟨hlen, hcnt⟩ := reachNS_inv h
  refine ⟨hcnt, ?_⟩
  unfold Coverage.is_full
  rw [hcnt]
  simp [countSome, List.length_eq_zero, List.filter_eq_nil,
    Option.not_isSome_iff_eq_none]

/-- C4 (witness): the amended invariant at the freshly constructed coverage. -/
theorem claim_C4_witness :
    Coverage.new.non_empty = countSome Coverage.new.columns ∧
      (Coverage.new.is_full = true ↔ ∀ u ∈ Coverage.new.columns, u = none) :=
  claim_C4 Coverage.new ReachNS.new

end Build

namespace Build

open Real in
/-- Exact values of the masked-angle conversion at the three claimed inputs.
The divisor in player.rs is `RANGE = 0x7ff = 2047` while the masked angle
space has 2048 values, so 512 and 1024 land slightly past the claimed
quarter- and half-turn marks. -/
theorem toRadiansR_values :
    toRadiansR 0 = -(π / 2) ∧ toRadiansR 512 = π / 4094 ∧
      toRadiansR 1024 = π / 2 + π / 2047 := by
  refine ⟨?_, ?_, ?_⟩ <;>
    · unfold toRadiansR
      norm_num
      try (field_simp; ring)

/-- Masking invariance of the conversion. -/
theorem toRadiansR_mask (a : ℤ) : toRadiansR a = toRadiansR (a % 2048) := by
  unfold toRadiansR
  rw [Int.emod_emod_of_dvd _ dvd_rfl]

open Real in
/-- C7 (counterexample): `to_radians(512)` is `π/4094 ≈ 0.000767`, not 0, and
`to_radians(1024)` is `π/2 + π/2047`, not `π/2` (the code divides by 2047
where the 2048-value angle space would need 2048; the deviation is three
orders of magnitude above f32 rounding, so the exact-real model is
conclusive). -/
theorem claim_C7_counterexample :
    toRadiansR 512 = π / 4094 ∧ (π / 4094 : ℝ) ≠ 0 ∧
      toRadiansR 1024 = π / 2 + π / 2047 ∧ (π / 2 + π / 2047 : ℝ) ≠ π / 2 := by
  obtain ⟨-, h512, h1024⟩ := toRadiansR_values
  refine ⟨h512, by positivity, h1024, ?_⟩
  intro h
  have : (π / 2047 : ℝ) = 0 := by linarith
  have hne : (π / 2047 : ℝ) ≠ 0 := by positivity
  exact hne this

open Real in
/-- C7 (amended): `to_radians(0) = −π/2` and masked inputs behave as their
masked counterparts, as claimed; but `to_radians(512) = π/4094` (not 0) and
`to_radians(1024) = π/2 + π/2047` (not `π/2`), because the conversion
divides by 2047 rather than 2048. -/
theorem claim_C7 :
    toRadiansR 0 = -(π / 2) ∧ toRadiansR 512 = π / 4094 ∧
      toRadiansR 1024 = π / 2 + π / 2047 ∧
      ∀ a : ℤ, toRadiansR a = toRadiansR (a % 2048) :=
  ⟨toRadiansR_values.1, toRadiansR_values.2.1, toRadiansR_values.2.2,
    toRadiansR_mask⟩

end Build

namespace Build

open Real in
/-- Bounds on the trig values of the raw angle 512 used by the C6
counterexample: `θ = π/4094` has `0 < sin θ < 1/1000` and
`99/100 < cos θ < 1`. -/
theorem trig512_bounds :
    0 < Real.sin (toRadiansR 512) ∧ Real.sin (toRadiansR 512) < 1 / 1000 ∧
      99 / 100 < Real.cos (toRadiansR 512) ∧ Real.cos (toRadiansR 512) < 1 := by
  have hθ : toRadiansR 512 = π / 4094 := toRadiansR_values.2.1
  rw [hθ]
  have hpi3 : (3 : ℝ) < π := by
    have := pi_gt_three
    linarith
  have hpi4 : π ≤ 4 := pi_le_four
  have hθpos : (0 : ℝ) < π / 4094 := by positivity
  have hθsmall : π / 4094 < 1 / 1000 := by
    rw [div_lt_div_iff (by norm_num) (by norm_num)]
    linarith
  have hsinpos : 0 < Real.sin (π / 4094) :=
    Real.sin_pos_of_pos_of_lt_pi hθpos (by linarith)
  have hsinlt : Real.sin (π / 4094) < 1 / 1000 :=
    lt_trans (Real.sin_lt hθpos) hθsmall
  have hcoslow : (99 / 100 : ℝ) < Real.cos (π / 4094) := by
    have h1 : (1 : ℝ) - (π / 4094) ^ 2 / 2 ≤ Real.cos (π / 4094) :=
      Real.one_sub_sq_div_two_le_cos
    have h2 : (π / 4094) ^ 2 < 1 / 100 := by
      have : (π / 4094) < 1 / 10 := by linarith
      nlinarith
    linarith
  have hcoshigh : Real.cos (π / 4094) < 1 := by
    rcases lt_or_eq_of_le (Real.cos_le_one (π / 4094)) with h | h
    · exact h
    · exfalso
      have hs0 : Real.sin (π / 4094) = 0 := by
        have := Real.sin_sq_add_cos_sq (π / 4094)
        nlinarith
      exact absurd hs0 (ne_of_gt hsinpos)
  exact ⟨hsinpos, hsinlt, hcoslow, hcoshigh⟩

end Build

namespace Build

/-- Truncation facts for the C6 counterexample: `trunc(cos θ · 100) = 99` and
`trunc(sin θ · 100) = 0` at raw angle 512. -/
theorem trunc512_cos :
    truncF (Real.cos (toRadiansR 512) * ((100 : ℤ) : ℝ)) = 99 := by
  obtain ⟨hs0, hs1, hc0, hc1⟩ := trig512_bounds
  unfold truncF
  rw [if_pos (by push_cast; nlinarith)]
  rw [Int.floor_eq_iff]
  constructor <;> push_cast <;> nlinarith

theorem trunc512_sin :
    truncF (Real.sin (toRadiansR 512) * ((100 : ℤ) : ℝ)) = 0 := by
  obtain ⟨hs0, hs1, hc0, hc1⟩ := trig512_bounds
  unfold truncF
  rw [if_pos (by push_cast; nlinarith)]
  rw [Int.floor_eq_iff]
  constructor <;> push_cast <;> nlinarith

end Build

namespace Build

/-- Cast-normalised forms of the truncation facts. -/
theorem trunc512_cos' :
    truncF (Real.cos (toRadiansR 512) * (100 : ℝ)) = 99 := by
  have h := trunc512_cos
  push_cast at h
  exact h

theorem trunc512_sin' :
    truncF (Real.sin (toRadiansR 512) * (100 : ℝ)) = 0 := by
  have h := trunc512_sin
  push_cast at h
  exact h

/-- C6 (counterexample): with raw angle 512 (`θ = π/4094`), `forwards = 0` and
`sideways = 100`, `update_player` moves the player by `dx = −99` while the
claimed formula `dx = −sin·forwards + cos·sideways` (truncated) gives `+99`:
the code subtracts the sideways contribution that the claim adds. -/
theorem claim_C6_counterexample :
    ((update_player (Real.sin (toRadiansR 512)) (Real.cos (toRadiansR 512))
        mapAngle512 { forwards := 0, sideways := 100, rotate := 0 }).map
      (fun mm => mm.player.pos_x)) = some (mapAngle512.player.pos_x + (-99)) ∧
      truncF (-(Real.sin (toRadiansR 512)) * ((0 : ℤ) : ℝ) +
        Real.cos (toRadiansR 512) * ((100 : ℤ) : ℝ)) = 99 ∧
      ((-99 : ℤ)) ≠ 99 := by
  refine ⟨?_, ?_, by decide⟩
  · have hsw : sectorWalls mapAngle512 mapAngle512.player.sector =
        some ({ wallptr := 0, wallnum := 1, ceiling_z := -4000, floor_z := 0 },
          [(0, { x := 1000, y := -1000, point2 := 0, next_sector := -1 },
            { x := 1000, y := -1000, point2 := 0, next_sector := -1 })]) := by decide
    simp only [update_player, hsw]
    simp [trunc512_cos', trunc512_sin', mapAngle512]
    decide
  · have heq : -(Real.sin (toRadiansR 512)) * ((0 : ℤ) : ℝ) +
        Real.cos (toRadiansR 512) * ((100 : ℤ) : ℝ) =
        Real.cos (toRadiansR 512) * ((100 : ℤ) : ℝ) := by
      push_cast
      ring
    rw [heq]
    exact trunc512_cos

end Build

namespace Build

/-- C6 (amended): whenever `update_player` completes, the per-frame
displacement is `dx = trunc(−sin·forwards) − trunc(cos·sideways)` and
`dy = trunc(cos·forwards) − trunc(sin·sideways)` — each term truncated
toward zero (and saturated to i32) separately, the sideways contribution
subtracted rather than added — and this displacement is applied to
`pos_x`/`pos_y` unconditionally, whether or not a portal was crossed. -/
theorem claim_C6 {α : Type} [LinearOrderedField α] [FloorRing α]
    (sinv cosv : α) (m m' : MapData) (opts : UpdateOpts)
    (h : update_player sinv cosv m opts = some m') :
    m'.player.pos_x = m.player.pos_x +
        (i32sat (truncF (-sinv * (opts.forwards : α))) -
          i32sat (truncF (cosv * (opts.sideways : α)))) ∧
      m'.player.pos_y = m.player.pos_y +
        (i32sat (truncF (cosv * (opts.forwards : α))) -
          i32sat (truncF (sinv * (opts.sideways : α)))) := by
  unfold update_player at h
  rcases hsw : sectorWalls m m.player.sector with _ | ⟨sec, chain⟩ <;> rw [hsw] at h
  · simp at h
  · simp only [Option.bind_eq_bind, Option.some_bind, Option.pure_def,
      Option.some.injEq] at h
    subst h
    by_cases hf : opts.forwards = 0 <;> by_cases hs : opts.sideways = 0 <;>
      simp [hf, hs, truncF, i32sat] <;> omega

end Build

namespace Build

/-- C6 (witness): the amended displacement law applied at a concrete call
(field `ℚ`, trig parameters 2 and 3, zero inputs on the trivial map). -/
theorem claim_C6_witness :
    update_player (2 : ℚ) 3 mapTrivial { forwards := 0, sideways := 0, rotate := 0 } =
        some mapTrivial ∧
      mapTrivial.player.pos_x = mapTrivial.player.pos_x +
        (i32sat (truncF (-(2 : ℚ) * ((0 : ℤ) : ℚ))) -
          i32sat (truncF ((3 : ℚ) * ((0 : ℤ) : ℚ)))) := by
  have h : update_player (2 : ℚ) 3 mapTrivial
      { forwards := 0, sideways := 0, rotate := 0 } = some mapTrivial := by
    have hsw : sectorWalls mapTrivial mapTrivial.player.sector =
        some ({ wallptr := 0, wallnum := 1, ceiling_z := -4000, floor_z := 0 },
          [(0, { x := 1000, y := -1000, point2 := 0, next_sector := -1 },
            { x := 1000, y := -1000, point2 := 0, next_sector := -1 })]) := by decide
    simp only [update_player, hsw]
    simp [mapTrivial]
  exact ⟨h, (claim_C6 (2 : ℚ) 3 mapTrivial mapTrivial
    { forwards := 0, sideways := 0, rotate := 0 } h).1⟩

end Build

namespace Build

set_option maxRecDepth 100000

set_option maxHeartbeats 3200000

/-- C8 (counterexample): `project_wall` contains no `top_left.x > top_right.x`
rejection.  For the back-facing wall of `mapSolid` (viewed from inside, so
its projected endpoints come out reversed: 160 > 159) it returns `Some`
geometry, not `None`; `sin`/`cos` of the player's raw angle 0 are exactly
`(-1, 0)`, so the rational pipeline below is the exact f32 pipeline up to
float rounding. -/
theorem claim_C8_counterexample :
    ((projectWall (-1) 0 0 0 0 mapSolid
        { wallptr := 0, wallnum := 2, ceiling_z := -9000, floor_z := 12000 }
        { x := 1000, y := 0, point2 := 0, next_sector := -1 }
        { x := 1000, y := -3, point2 := 1, next_sector := -1 }).map
      (fun p => decide (p.1.top_left.1 > p.1.top_right.1))) = some true ∧
      Real.sin (toRadiansR 0) = -1 ∧ Real.cos (toRadiansR 0) = 0 := by
  refine ⟨by decide, ?_, ?_⟩
  · rw [toRadiansR_values.1]
    simp
  · rw [toRadiansR_values.1]
    simp

/-- C8 (amended): the rejection of walls whose projected `top_left.x` exceeds
`top_right.x` is not performed by `project_wall` (which returns `Some` for
them); it happens in `lines_iter`, whose clamped column range is then empty,
so nothing of the wall is rendered (no pixel writes, no coverage change) and
`render_portal_wall` reports no painted extent, hence no BFS node is pushed. -/
theorem claim_C8 (geo : Geometry Pt2) (intr : Interval) (cov : Coverage)
    (h : geo.top_left.1 > geo.top_right.1) :
    linesIter geo intr = [] ∧
      renderSolidWall cov geo intr = some (cov, []) ∧
      renderPortalWall cov geo intr = some (cov, [], none) := by
  have hempty : linesIter geo intr = [] := by
    unfold linesIter
    have h0 : (min (max geo.top_right.1 0) (WIDTH : ℤ) -
        min (max geo.top_left.1 0) (WIDTH : ℤ)).toNat = 0 := by
      have : min (max geo.top_right.1 0) (WIDTH : ℤ) ≤
          min (max geo.top_left.1 0) (WIDTH : ℤ) := by
        have := le_of_lt h
        simp only [le_min_iff, min_le_iff]
        omega
      omega
    simp [h0]
  refine ⟨hempty, ?_, ?_⟩
  · unfold renderSolidWall
    rw [hempty]
    rfl
  · unfold renderPortalWall
    rw [hempty]
    rfl

/-- C8 (witness): the amended theorem at a concrete reversed geometry. -/
theorem claim_C8_witness :
    (5 : ℤ) > 3 ∧
      linesIter
        { top_left := (5, 0), top_right := (3, 0), bottom_left := (5, 10),
          bottom_right := (3, 10), in_top_left := (5, 0), in_top_right := (3, 0),
          in_bottom_left := (5, 10), in_bottom_right := (3, 10) }
        (interval 0 (WIDTH : ℤ)) = [] :=
  ⟨by decide, (claim_C8
    { top_left := (5, 0), top_right := (3, 0), bottom_left := (5, 10),
      bottom_right := (3, 10), in_top_left := (5, 0), in_top_right := (3, 0),
      in_bottom_left := (5, 10), in_bottom_right := (3, 10) }
    (interval 0 (WIDTH : ℤ)) Coverage.new (by decide)).1⟩

end Build

namespace Build

set_option maxRecDepth 1000000

set_option maxHeartbeats 3200000

/-- The render-loop state of `mapSelfPortal` is a fixed point after the first
iteration: coverage is not full, and processing the re-pushed node returns
the identical queue and coverage with no new writes. -/
theorem covSP_not_full : covSP.is_full = false := by decide

theorem selfPortal_step :
    processSector (-1) 0 0 0 0 mapSelfPortal 0 (some (156, 160)) covSP [] =
      some ([(0, some (156, 160))], covSP, []) := by decide

theorem selfPortal_first :
    processSector (-1) 0 0 0 0 mapSelfPortal 0 (interval 0 (WIDTH : ℤ))
      Coverage.new [] = some ([(0, some (156, 160))], covSP,
        [(156, 199, 0), (156, 0, 0), (157, 199, 0), (157, 0, 0),
         (158, 199, 0), (158, 0, 0), (159, 199, 0), (159, 0, 0)]) := by decide

/-- From the repeating state, every amount of fuel runs out. -/
theorem selfPortal_loop (n : ℕ) :
    ∀ L, renderLoop (-1) 0 0 0 0 mapSelfPortal n [(0, some (156, 160))] covSP L =
      .fuelOut := by
  induction n with
  | zero => intro L; rfl
  | succ k ih =>
    intro L
    simp only [renderLoop, covSP_not_full, Bool.false_eq_true, if_false,
      selfPortal_step, List.append_nil]
    exact ih L

/-- The render loop of `mapSelfPortal` runs out of any amount of fuel. -/
theorem selfPortal_diverges (n : ℕ) :
    render (-1) 0 mapSelfPortal n = .fuelOut := by
  cases n with
  | zero => rfl
  | succ k =>
    show renderLoop (-1) 0 0 0 0 mapSelfPortal (k + 1)
      [(0, interval 0 (WIDTH : ℤ))] Coverage.new [] = .fuelOut
    have hnew : Coverage.new.is_full = false := by decide
    simp only [renderLoop, hnew, Bool.false_eq_true, if_false, selfPortal_first,
      List.nil_append]
    exact selfPortal_loop k _

/-- The exact trig values of the player's raw angle 0. -/
theorem trig0_values :
    Real.sin (toRadiansR 0) = -1 ∧ Real.cos (toRadiansR 0) = 0 := by
  constructor
  · rw [toRadiansR_values.1]
    simp
  · rw [toRadiansR_values.1]
    simp

/-- C1 (counterexample): `Renderer::render` on `mapSelfPortal` — a map whose
only visible wall is a portal back into its own sector — never terminates:
the loop re-pushes the same node with the same interval forever while the
portal-hole rows of its columns are never painted, so coverage never fills
and the queue never empties.  (The trig parameters `(-1, 0)` are the exact
values of `sin`/`cos` at the player's raw angle 0, as the final conjuncts
state.) -/
theorem claim_C1_counterexample :
    (∀ n : ℕ, render (-1) 0 mapSelfPortal n = .fuelOut) ∧
      Real.sin (toRadiansR 0) = -1 ∧ Real.cos (toRadiansR 0) = 0 :=
  ⟨selfPortal_diverges, trig0_values.1, trig0_values.2⟩

end Build

namespace Build

set_option maxRecDepth 1000000

set_option maxHeartbeats 3200000

/-- C3 (counterexample): `mapSelfPortal` satisfies every validity condition the
claim lists (player sector, wall runs, `point2` and `next_sector` all in
range — the self-portal `next_sector = 0` is a valid index), yet `render`
never returns: the loop runs forever, so the call does not "return
normally". -/
theorem claim_C3_counterexample :
    MapValid mapSelfPortal ∧
      (∀ (n : ℕ) (r : List Node × Coverage × List Write),
        render (-1) 0 mapSelfPortal n ≠ .ok r) ∧
      Real.sin (toRadiansR 0) = -1 ∧ Real.cos (toRadiansR 0) = 0 := by
  refine ⟨by decide, ?_, trig0_values.1, trig0_values.2⟩
  · intro n r h
    rw [selfPortal_diverges n] at h
    exact RunResult.noConfusion h

/-- C2 (counterexample): during a single `render` of `mapPortalFrame` the pixel
`(159, 0)` is written twice — the top portal frame paints rows `[0, 3)` and
the one-pixel black border then repaints row 0, because coverage is only
updated after all the lines of the column are drawn.  (Trig parameters as
before: the exact values at raw angle 0.) -/
theorem claim_C2_counterexample :
    (writesOf (render (-1) 0 mapPortalFrame 4)).countP
        (fun t => t.1 == 159 && t.2.1 == 0) = 2 ∧
      Real.sin (toRadiansR 0) = -1 ∧ Real.cos (toRadiansR 0) = 0 :=
  ⟨by decide, trig0_values.1, trig0_values.2⟩

end Build
namespace Build

/-- A drained wall chain is no longer than the fuel that produced it. -/
theorem sectorWallsAux_length {walls : List Wall} {first : ℕ} :
    ∀ {fuel curr : ℕ} {l : List (ℕ × Wall × Wall)},
      sectorWallsAux walls first curr fuel = some l → l.length ≤ fuel := by
  intro fuel
  induction fuel with
  | zero => intro curr l h; cases h
  | succ k ih =>
    intro curr l h
    unfold sectorWallsAux at h
    repeat' split at h
    · cases h
    · cases h
    · cases h
    · cases h
      simp
    · rw [Option.map_eq_some'] at h
      rcases h with ⟨rest, hrec, rfl⟩
      have := ih hrec
      simp
      omega

/-- Every left wall of a drained chain is a wall of the map. -/
theorem sectorWallsAux_mem {walls : List Wall} {first : ℕ} :
    ∀ {fuel curr : ℕ} {l : List (ℕ × Wall × Wall)},
      sectorWallsAux walls first curr fuel = some l →
        ∀ it ∈ l, it.2.1 ∈ walls := by
  intro fuel
  induction fuel with
  | zero => intro curr l h; cases h
  | succ k ih =>
    intro curr l h it hit
    unfold sectorWallsAux at h
    repeat' split at h
    · cases h
    · cases h
    · cases h
    · cases h
      simp only [List.mem_singleton] at hit
      subst hit
      exact List.get?_mem (by assumption)
    · rw [Option.map_eq_some'] at h
      rcases h with ⟨rest, hrec, rfl⟩
      rcases List.mem_cons.mp hit with h' | h'
      · subst h'
        exact List.get?_mem (by assumption)
      · exact ih hrec it h'

/-- `Ffn` is at least one. -/
theorem Ffn_pos (K r : ℕ) : 1 ≤ Ffn K r := by
  cases r with
  | zero => exact le_refl _
  | succ t =>
    show 1 ≤ 1 + K * Ffn K t
    omega

/-- `Ffn` is monotone in the rank (for a positive branching bound). -/
theorem Ffn_mono {K : ℕ} (hK : 1 ≤ K) : ∀ {r s : ℕ}, r ≤ s → Ffn K r ≤ Ffn K s := by
  intro r s h
  induction s with
  | zero =>
    cases Nat.le_zero.mp h
    exact le_refl _
  | succ t ih =>
    rcases Nat.lt_or_ge r (t + 1) with h' | h'
    · have h1 := ih (Nat.lt_succ_iff.mp h')
      have h2 : Ffn K t ≤ K * Ffn K t := Nat.le_mul_of_pos_left _ (by omega)
      show Ffn K r ≤ 1 + K * Ffn K t
      omega
    · have : r = t + 1 := le_antisymm h h'
      subst this
      exact le_refl _

/-- Summed budgets of a push list, bounded elementwise. -/
theorem measureQ_le_of_forall {rank : ℤ → ℕ} {K B : ℕ} :
    ∀ {ps : List Node}, (∀ nd ∈ ps, Ffn K (rank nd.1) ≤ B) →
      measureQ rank K ps ≤ ps.length * B := by
  intro ps
  induction ps with
  | nil => intro _; simp [measureQ]
  | cons a t ih =>
    intro h
    have ha := h a (List.mem_cons_self a t)
    have ht := ih (fun nd hnd => h nd (List.mem_cons_of_mem a hnd))
    simp only [measureQ, List.map_cons, List.sum_cons] at *
    calc Ffn K (rank a.1) + (t.map fun nd => Ffn K (rank nd.1)).sum
        ≤ B + t.length * B := Nat.add_le_add ha ht
      _ = (t.length + 1) * B := by ring
      _ = (a :: t).length * B := by simp [Nat.add_comm]

/-- `measureQ` distributes over append and ignores reversal. -/
theorem measureQ_append (rank : ℤ → ℕ) (K : ℕ) (p q : List Node) :
    measureQ rank K (p ++ q) = measureQ rank K p + measureQ rank K q := by
  simp [measureQ]

theorem measureQ_reverse (rank : ℤ → ℕ) (K : ℕ) (p : List Node) :
    measureQ rank K p.reverse = measureQ rank K p := by
  simp [measureQ, List.sum_reverse]

end Build
namespace Build

/-- The wall loop pushes at most one node per wall, and each pushed node's
sector id is the `next_sector` of one of the processed portal walls. -/
theorem processWalls_spec {intr : Interval} :
    ∀ {ws : List (Wall × Geometry Pt2)} {cov cov' : Coverage}
      {wr : List Write} {ps : List Node},
      processWalls intr cov ws = some (cov', wr, ps) →
        ps.length ≤ ws.length ∧
          ∀ nd ∈ ps, ∃ wg ∈ ws, wg.1.next_sector = nd.1 ∧ wg.1.next_sector ≠ -1 := by
  intro ws
  induction ws with
  | nil =>
    intro cov cov' wr ps h
    cases h
    simp
  | cons wg rest ih =>
    intro cov cov' wr ps h
    unfold processWalls at h
    split_ifs at h with hns
    · rcases hrs : renderSolidWall cov wg.2 intr with _ | ⟨cov1, wr1⟩ <;> rw [hrs] at h
      · cases h
      · simp only [Option.bind_eq_bind, Option.some_bind] at h
        rcases hpw : processWalls intr cov1 rest with _ | ⟨cov2, wr2, ps2⟩ <;>
          rw [hpw] at h
        · cases h
        · simp only [Option.some_bind, Option.pure_def, Option.some.injEq] at h
          obtain ⟨-, -, rfl⟩ : cov2 = cov' ∧ wr1 ++ wr2 = wr ∧ ps2 = ps := by
            cases h
            exact ⟨rfl, rfl, rfl⟩
          obtain ⟨hlen, hmem⟩ := ih hpw
          refine ⟨by simpa using Nat.le_succ_of_le hlen, ?_⟩
          intro nd hnd
          obtain ⟨wg', hwg', he, hne⟩ := hmem nd hnd
          exact ⟨wg', List.mem_cons_of_mem _ hwg', he, hne⟩
    · rcases hrp : renderPortalWall cov wg.2 intr with _ | ⟨cov1, wr1, res⟩ <;>
        rw [hrp] at h
      · cases h
      · simp only [Option.bind_eq_bind, Option.some_bind] at h
        rcases hpw : processWalls intr cov1 rest with _ | ⟨cov2, wr2, ps2⟩ <;>
          rw [hpw] at h
        · cases h
        · simp only [Option.some_bind, Option.pure_def, Option.some.injEq] at h
          obtain ⟨-, -, hps⟩ : cov2 = cov' ∧ wr1 ++ wr2 = wr ∧
              (if (intersect res intr).isSome then
                (wg.1.next_sector, intersect res intr) :: ps2 else ps2) = ps := by
            cases h
            exact ⟨rfl, rfl, rfl⟩
          obtain ⟨hlen, hmem⟩ := ih hpw
          subst hps
          split_ifs with hclip
          · refine ⟨by simpa using Nat.succ_le_succ hlen, ?_⟩
            intro nd hnd
            rcases List.mem_cons.mp hnd with h' | h'
            · subst h'
              exact ⟨wg, List.mem_cons_self _ _, rfl, hns⟩
            · obtain ⟨wg', hwg', he, hne⟩ := hmem nd h'
              exact ⟨wg', List.mem_cons_of_mem _ hwg', he, hne⟩
          · refine ⟨by simpa using Nat.le_succ_of_le hlen, ?_⟩
            intro nd hnd
            obtain ⟨wg', hwg', he, hne⟩ := hmem nd hnd
            exact ⟨wg', List.mem_cons_of_mem _ hwg', he, hne⟩

end Build

namespace Build

/-- Inversion of a successful `sectorWalls` lookup. -/
theorem sectorWalls_inv {m : MapData} {sid : ℤ} {sec : Sector}
    {chain : List (ℕ × Wall × Wall)} (h : sectorWalls m sid = some (sec, chain)) :
    ¬sid < 0 ∧ m.sectors.get? sid.toNat = some sec ∧
      sectorWallsAux m.walls sec.wallptr sec.wallptr (m.walls.length + 1) =
        some chain := by
  unfold sectorWalls at h
  rcases heq : sectorsGet m sid with _ | sec' <;> rw [heq] at h
  · cases h
  · rw [Option.map_eq_some'] at h
    obtain ⟨l', hx, hpair⟩ := h
    obtain ⟨rfl, rfl⟩ : sec' = sec ∧ l' = chain := by
      cases hpair
      exact ⟨rfl, rfl⟩
    unfold sectorsGet at heq
    split_ifs at heq with hneg
    exact ⟨hneg, heq, hx⟩

/-- Processing a popped node strictly decreases the queue measure when the
portal graph admits a decreasing rank. -/
theorem processSector_measure {sinv cosv px py pz : Frac} {m : MapData}
    {rank : ℤ → ℕ} (hR : RankOk m rank) {sid : ℤ} {intr : Interval}
    {cov : Coverage} {rest : List Node} {q' : List Node} {cov' : Coverage}
    {wr : List Write}
    (h : processSector sinv cosv px py pz m sid intr cov rest = some (q', cov', wr)) :
    measureQ rank (m.walls.length + 1) q' + 1 ≤
      measureQ rank (m.walls.length + 1) ((sid, intr) :: rest) := by
  unfold processSector at h
  rcases hsw : sectorWalls m sid with _ | ⟨sec, chain⟩ <;> rw [hsw] at h
  · cases h
  · simp only [Option.bind_eq_bind, Option.some_bind] at h
    set projected := chain.filterMap (fun it =>
      (projectWall sinv cosv px py pz m sec it.2.1 it.2.2).map
        (fun p => (it.2.1, p))) with hprojected
    set sorted := List.insertionSort (fun a b => a.2.2 ≤ b.2.2) projected
      with hsorted
    rcases hpw : processWalls intr cov (sorted.map (fun a => (a.1, a.2.1)))
      with _ | ⟨cov2, wr2, ps2⟩ <;> rw [hpw] at h
    · cases h
    · simp only [Option.some_bind, Option.pure_def, Option.some.injEq] at h
      obtain ⟨rfl, -, -⟩ : ps2.reverse ++ rest = q' ∧ cov2 = cov' ∧ wr2 = wr := by
        cases h
        exact ⟨rfl, rfl, rfl⟩
      obtain ⟨hlen, hmem⟩ := processWalls_spec hpw
      obtain ⟨hneg, hget, hx⟩ := sectorWalls_inv hsw
      have hcast : ((sid.toNat : ℕ) : ℤ) = sid := Int.toNat_of_nonneg (by omega)
      have hilt : sid.toNat < m.sectors.length := (List.get?_eq_some.mp hget).1
      have hchain : chain.length ≤ m.walls.length + 1 := sectorWallsAux_length hx
      have hps_len : ps2.length ≤ m.walls.length + 1 := by
        refine le_trans hlen (le_trans ?_ hchain)
        rw [List.length_map]
        calc sorted.length = projected.length := (List.perm_insertionSort _ _).length_eq
          _ ≤ chain.length := by
            rw [hprojected]
            exact List.length_filterMap_le _ _
      have hrank : ∀ nd ∈ ps2, rank nd.1 < rank sid := by
        intro nd hnd
        obtain ⟨wg, hwg, he, hne⟩ := hmem nd hnd
        rw [List.mem_map] at hwg
        obtain ⟨a, ha, rfl⟩ := hwg
        have ha' : a ∈ projected := (List.perm_insertionSort _ _).mem_iff.mp ha
        rw [hprojected, List.mem_filterMap] at ha'
        obtain ⟨it, hit, hproj⟩ := ha'
        rw [Option.map_eq_some'] at hproj
        obtain ⟨pg, -, hpg⟩ := hproj
        have hleft : a.1 = it.2.1 := by rw [← hpg]
        have hlt := hR sid.toNat hilt sec chain (by rw [hcast]; exact hsw) it hit
          (by rw [← hleft]; exact hne)
        rw [hcast] at hlt
        rw [← he, hleft]
        exact hlt
      rw [measureQ_append, measureQ_reverse]
      show measureQ rank (m.walls.length + 1) ps2 +
          measureQ rank (m.walls.length + 1) rest + 1 ≤
        Ffn (m.walls.length + 1) (rank sid) + measureQ rank (m.walls.length + 1) rest
      rcases hr : rank sid with _ | s
      · have hempty : ps2 = [] := by
          cases hps : ps2 with
          | nil => rfl
          | cons a t =>
            exfalso
            have := hrank a (by rw [hps]; exact List.mem_cons_self a t)
            omega
        subst hempty
        simp only [measureQ, List.map_nil, List.sum_nil, Nat.zero_add]
        have h1 : Ffn (m.walls.length + 1) 0 = 1 := rfl
        omega
      · have hbound : ∀ nd ∈ ps2, Ffn (m.walls.length + 1) (rank nd.1) ≤
            Ffn (m.walls.length + 1) s := by
          intro nd hnd
          have := hrank nd hnd
          exact Ffn_mono (by omega) (by omega)
        have hsum := measureQ_le_of_forall hbound
        have hK : ps2.length * Ffn (m.walls.length + 1) s ≤
            (m.walls.length + 1) * Ffn (m.walls.length + 1) s :=
          Nat.mul_le_mul_right _ hps_len
        show _ + _ + 1 ≤ Ffn (m.walls.length + 1) (s + 1) + _
        have hfs : Ffn (m.walls.length + 1) (s + 1) =
            1 + (m.walls.length + 1) * Ffn (m.walls.length + 1) s := rfl
        omega

end Build

namespace Build

/-- With a rank-decreasing portal graph the render loop cannot run out of fuel
exceeding the queue measure: every iteration pops a budget larger than the
budgets it pushes. -/
theorem loop_completes {sinv cosv px py pz : Frac} {m : MapData}
    {rank : ℤ → ℕ} (hR : RankOk m rank) :
    ∀ (n : ℕ) (q : List Node) (cov : Coverage) (w : List Write),
      measureQ rank (m.walls.length + 1) q < n →
      renderLoop sinv cosv px py pz m n q cov w ≠ .fuelOut := by
  intro n
  induction n with
  | zero =>
    intro q cov w hm
    exact absurd hm (Nat.not_lt_zero _)
  | succ k ih =>
    intro q cov w hm
    show renderLoop sinv cosv px py pz m (k + 1) q cov w ≠ .fuelOut
    simp only [renderLoop]
    split_ifs with hfull
    · intro hc
      cases hc
    · cases q with
      | nil =>
        intro hc
        cases hc
      | cons nd rest =>
        rcases nd with ⟨sid, intr⟩
        rcases hps : processSector sinv cosv px py pz m sid intr cov rest
          with _ | ⟨q', cov', wr⟩
        · simp only [hps]
          intro hc
          cases hc
        · simp only [hps]
          have hdec := processSector_measure hR hps
          exact ih q' cov' (w ++ wr) (by omega)

/-- C1 (amended): the render loop completes in finitely many steps for every
Map whose portal graph admits a strictly decreasing rank function (in
particular, whose portal graph is acyclic) — the queue/coverage mechanism
alone bounds those traversals.  Without that restriction the claim is
false: the code has no depth cap and a map whose portal cycle stays visible
loops forever (see the counterexample). -/
theorem claim_C1 (sinv cosv : Frac) (m : MapData)
    (h : ∃ rank : ℤ → ℕ, RankOk m rank) :
    ∃ n : ℕ, render sinv cosv m n ≠ .fuelOut := by
  rcases h with ⟨rank, hR⟩
  refine ⟨measureQ rank (m.walls.length + 1)
    [(m.player.sector, interval 0 (WIDTH : ℤ))] + 1, ?_⟩
  exact loop_completes hR _ _ _ _ (by omega)

/-- The all-solid trivial map has a (vacuous) decreasing rank. -/
theorem rankOk_mapTrivial : RankOk mapTrivial (fun _ => 0) := by
  intro i hi sec chain hsw it hit hne
  exfalso
  have hi0 : i = 0 := by
    have : mapTrivial.sectors.length = 1 := by decide
    omega
  subst hi0
  have h0 : sectorWalls mapTrivial ((0 : ℕ) : ℤ) =
      some ({ wallptr := 0, wallnum := 1, ceiling_z := -4000, floor_z := 0 },
        [(0, { x := 1000, y := -1000, point2 := 0, next_sector := -1 },
          { x := 1000, y := -1000, point2 := 0, next_sector := -1 })]) := by
    decide
  rw [h0] at hsw
  cases hsw
  simp only [List.mem_singleton] at hit
  subst hit
  exact hne rfl

/-- C1 (witness): the amended theorem at the all-solid `mapTrivial` with the
constant rank. -/
theorem claim_C1_witness :
    (∃ rank : ℤ → ℕ, RankOk mapTrivial rank) ∧
      ∃ n : ℕ, render (-1) 0 mapTrivial n ≠ .fuelOut :=
  ⟨⟨fun _ => 0, rankOk_mapTrivial⟩,
    claim_C1 (-1) 0 mapTrivial ⟨fun _ => 0, rankOk_mapTrivial⟩⟩

end Build

namespace Build

/-- A small in-range index is its own usize cast. -/
theorem usizeOf_small {z : ℤ} (h0 : 0 ≤ z) (h1 : z < (WIDTH : ℤ)) :
    usizeOf z = z.toNat ∧ z.toNat < WIDTH := by
  unfold usizeOf
  have hW : ((WIDTH : ℕ) : ℤ) = 320 := rfl
  have hW' : WIDTH = 320 := rfl
  have hm : z % 2 ^ 64 = z := Int.emod_eq_of_lt h0 (by omega)
  rw [hm]
  omega

/-- `render_line` panics on no in-range vertical segment: the assertion holds,
the coverage column exists, and every written row stays inside the
framebuffer because coverage columns stay inside `[0, HEIGHT]`. -/
theorem renderLine_ok {cov : Coverage} {x0 y0 x1 y1 : ℤ} {color : ℕ}
    (hc : CovOk cov) (hx : x0 = x1) (hr0 : 0 ≤ x0) (hr1 : x0 < (WIDTH : ℤ)) :
    ∃ ws, renderLine cov ((x0, y0), (x1, y1)) color = some ws := by
  obtain ⟨hz, hlt⟩ := usizeOf_small hr0 hr1
  unfold renderLine
  dsimp only
  rw [if_pos hx]
  unfold Coverage.get_column
  split_ifs with hfull hcol
  · dsimp only
    rw [intersect_none_left]
    exact ⟨[], rfl⟩
  · rcases hcu : cov.columns.get ⟨usizeOf x0, hcol⟩ with _ | cu
    · dsimp only
      rw [intersect_none_left]
      exact ⟨[], rfl⟩
    · dsimp only
      rcases hiv : interval y0 y1 with _ | iv
      · rw [intersect_none_right]
        exact ⟨[], rfl⟩
      · rcases hint : intersect (some cu) (some iv) with _ | ⟨a, b⟩
        · exact ⟨[], rfl⟩
        · have hsub := intersect_some_sub hint
          dsimp only at hsub
          have hmem : some cu ∈ cov.columns := by
            rw [← hcu]
            exact List.get_mem _ _ _
          have hbd := hc.2 (some cu) hmem cu.1 cu.2 rfl
          dsimp only
          rw [if_neg (by omega)]
          exact ⟨_, rfl⟩
  · exfalso
    apply hcol
    rw [hc.1, hz]
    exact hlt

/-- `intersect_column` succeeds on an in-range column and preserves the
coverage bounds. -/
theorem intersect_column_ok {cov : Coverage} {x : ℤ} {i : Interval}
    (hc : CovOk cov) (hr0 : 0 ≤ x) (hr1 : x < (WIDTH : ℤ)) :
    ∃ cov', cov.intersect_column (usizeOf x) i = some cov' ∧ CovOk cov' := by
  obtain ⟨hz, hlt⟩ := usizeOf_small hr0 hr1
  unfold Coverage.intersect_column
  split_ifs with hfull hcol
  · exact ⟨cov, rfl, hc⟩
  · refine ⟨_, rfl, by simpa using hc.1, ?_⟩
    intro u hu a b hab
    rcases List.mem_or_eq_of_mem_set hu with hmem | hval
    · exact hc.2 u hmem a b hab
    · rw [hval] at hab
      rcases hcu : cov.columns.get ⟨usizeOf x, hcol⟩ with _ | cu
      · rw [hcu, intersect_none_left] at hab
        cases hab
      · rcases hiv : i with _ | iv
        · rw [hcu, hiv, intersect_none_right] at hab
          cases hab
        · rw [hcu, hiv] at hab
          have hsub := intersect_some_sub hab
          have hmem : some cu ∈ cov.columns := by
            rw [← hcu]
            exact List.get_mem _ _ _
          have hbd := hc.2 (some cu) hmem cu.1 cu.2 rfl
          exact ⟨le_trans hbd.1 hsub.1, le_trans hsub.2.1 hbd.2⟩
  · exfalso
    apply hcol
    rw [hc.1, hz]
    exact hlt

end Build

namespace Build

/-- Every item yielded by `lines_iter` is well-shaped. -/
theorem linesIter_item_ok {geo : Geometry Pt2} {intr : Interval}
    {it : ℕ × Seg × Seg} (h : it ∈ linesIter geo intr) : ItemOk it := by
  unfold linesIter at h
  rw [List.mem_map] at h
  obtain ⟨p, hpf, rfl⟩ := h
  rw [List.mem_filter] at hpf
  obtain ⟨hpm, -⟩ := hpf
  rw [List.mem_map] at hpm
  obtain ⟨k, hk, rfl⟩ := hpm
  rw [List.mem_range] at hk
  have hW : ((WIDTH : ℕ) : ℤ) = 320 := rfl
  refine ⟨rfl, rfl, rfl, ?_, ?_, ?_, ?_⟩
  · dsimp only
    omega
  · dsimp only
    omega
  · dsimp only
    exact le_max_right _ _
  · dsimp only
    exact min_le_right _ _

end Build

namespace Build

/-- A solid-wall column pass never panics on a well-shaped item and keeps the
coverage bounds. -/
theorem solidWallItem_ok {cov : Coverage} {it : ℕ × Seg × Seg}
    (hc : CovOk cov) (hit : ItemOk it) :
    ∃ cov' ws, solidWallItem cov it = some (cov', ws) ∧ CovOk cov' := by
  obtain ⟨i, ⟨⟨⟨x, wy0⟩, ⟨x1, wy1⟩⟩, ⟨⟨px0, py0⟩, ⟨px1, py1⟩⟩⟩⟩ := it
  obtain ⟨he1, he2, he3, hr0, hr1, -, -⟩ := hit
  dsimp only at he1 he2 he3 hr0 hr1
  subst he1
  subst he2
  subst he3
  obtain ⟨ws1, h1⟩ := @renderLine_ok _ _ wy0 _ wy1
    (if i = 0 then BLACK_COLOR else WALL_COLOR) hc rfl hr0 hr1
  obtain ⟨ws2, h2⟩ := @renderLine_ok _ _ (wy1 - 1) _ wy1 BLACK_COLOR hc rfl hr0 hr1
  obtain ⟨ws3, h3⟩ := @renderLine_ok _ _ wy0 _ (wy0 + 1) BLACK_COLOR hc rfl hr0 hr1
  obtain ⟨ws4, h4⟩ := @renderLine_ok _ _ 0 _ wy0 CEILING_COLOR hc rfl hr0 hr1
  obtain ⟨ws5, h5⟩ := @renderLine_ok _ _ wy1 _ (HEIGHT : ℤ) FLOOR_COLOR hc rfl hr0 hr1
  obtain ⟨cov', hic, hcov'⟩ := @intersect_column_ok _ _ none hc hr0 hr1
  refine ⟨cov', ws1 ++ ws2 ++ ws3 ++ ws4 ++ ws5, ?_, hcov'⟩
  unfold solidWallItem
  dsimp only
  rw [h1, h2, h3, h4, h5, hic]
  rfl

/-- A portal-wall column pass never panics on a well-shaped item and keeps the
coverage bounds. -/
theorem portalWallItem_ok {htf hbf : Bool} {cov : Coverage} {it : ℕ × Seg × Seg}
    (hc : CovOk cov) (hit : ItemOk it) :
    ∃ cov' ws, portalWallItem htf hbf cov it = some (cov', ws) ∧ CovOk cov' := by
  obtain ⟨i, ⟨⟨⟨x, wy0⟩, ⟨x1, wy1⟩⟩, ⟨⟨px0, py0⟩, ⟨px1, py1⟩⟩⟩⟩ := it
  obtain ⟨he1, he2, he3, hr0, hr1, -, -⟩ := hit
  dsimp only at he1 he2 he3 hr0 hr1
  subst he1
  subst he2
  subst he3
  obtain ⟨ws1, h1⟩ := @renderLine_ok _ _ (py1 - 1) _ py1 BLACK_COLOR hc rfl hr0 hr1
  obtain ⟨ws2, h2⟩ := @renderLine_ok _ _ py0 _ (py0 + 1) BLACK_COLOR hc rfl hr0 hr1
  obtain ⟨wsa, ha⟩ := @renderLine_ok _ _ wy0 _ py0
    (if i = 0 then BLACK_COLOR else WALL_COLOR) hc rfl hr0 hr1
  obtain ⟨wsb, hb⟩ := @renderLine_ok _ _ wy0 _ (wy0 + 1) BLACK_COLOR hc rfl hr0 hr1
  obtain ⟨wsc, hcx⟩ := @renderLine_ok _ _ py1 _ wy1
    (if i = 0 then BLACK_COLOR else PORTAL_FRAME_COLOR) hc rfl hr0 hr1
  obtain ⟨wsd, hd⟩ := @renderLine_ok _ _ (wy1 - 1) _ wy1 BLACK_COLOR hc rfl hr0 hr1
  obtain ⟨ws3, h3⟩ := @renderLine_ok _ _ 0 _ wy0 CEILING_COLOR hc rfl hr0 hr1
  obtain ⟨ws4, h4⟩ := @renderLine_ok _ _ wy1 _ (HEIGHT : ℤ) FLOOR_COLOR hc rfl hr0 hr1
  obtain ⟨cov', hic, hcov'⟩ :=
    @intersect_column_ok _ _ (interval (py0 + 1) (py1 - 1)) hc hr0 hr1
  unfold portalWallItem
  dsimp only
  rw [h1, h2]
  cases htf <;> cases hbf <;>
    · simp only [Bool.or_self, Bool.or_true, Bool.true_or, Bool.false_or,
        if_true, if_false, Bool.false_eq_true, Option.some_bind,
        Option.bind_eq_bind, Option.pure_def]
      first
        | (rw [h3, h4, hic]; exact ⟨cov', _, rfl, hcov'⟩)
        | (rw [ha, hb, h3, h4, hic]; exact ⟨cov', _, rfl, hcov'⟩)
        | (rw [hcx, hd, h3, h4, hic]; exact ⟨cov', _, rfl, hcov'⟩)
        | (rw [ha, hb, hcx, hd, h3, h4, hic]; exact ⟨cov', _, rfl, hcov'⟩)

end Build

namespace Build

/-- The solid-wall fold succeeds on well-shaped items. -/
theorem solidWallGo_ok :
    ∀ {items : List (ℕ × Seg × Seg)} {cov : Coverage}, CovOk cov →
      (∀ it ∈ items, ItemOk it) →
      ∃ cov' ws, solidWallGo cov items = some (cov', ws) ∧ CovOk cov' := by
  intro items
  induction items with
  | nil =>
    intro cov hc _
    exact ⟨cov, [], rfl, hc⟩
  | cons it rest ih =>
    intro cov hc hall
    obtain ⟨cov1, ws1, h1, hc1⟩ :=
      solidWallItem_ok hc (hall it (List.mem_cons_self it rest))
    obtain ⟨cov2, ws2, h2, hc2⟩ :=
      ih hc1 (fun x hx => hall x (List.mem_cons_of_mem it hx))
    refine ⟨cov2, ws1 ++ ws2, ?_, hc2⟩
    unfold solidWallGo
    rw [h1]
    simp only [Option.bind_eq_bind, Option.some_bind]
    rw [h2]
    rfl

/-- The portal-wall fold succeeds on well-shaped items. -/
theorem portalWallGo_ok {htf hbf : Bool} :
    ∀ {items : List (ℕ × Seg × Seg)} {cov : Coverage} {pi0 pi1 : ℤ} {dr : Bool},
      CovOk cov → (∀ it ∈ items, ItemOk it) →
      ∃ cov' ws a b dr', portalWallGo htf hbf cov pi0 pi1 dr items =
        some (cov', ws, a, b, dr') ∧ CovOk cov' := by
  intro items
  induction items with
  | nil =>
    intro cov pi0 pi1 dr hc _
    exact ⟨cov, [], pi0, pi1, dr, rfl, hc⟩
  | cons it rest ih =>
    intro cov pi0 pi1 dr hc hall
    obtain ⟨cov1, ws1, h1, hc1⟩ :=
      @portalWallItem_ok htf hbf _ _ hc
        (hall it (List.mem_cons_self it rest))
    obtain ⟨cov2, ws2, a, b, dr', h2, hc2⟩ :=
      ih hc1 (fun x hx => hall x (List.mem_cons_of_mem it hx))
    refine ⟨cov2, ws1 ++ ws2, a, b, dr', ?_, hc2⟩
    unfold portalWallGo
    rw [h1]
    simp only [Option.bind_eq_bind, Option.some_bind]
    rw [h2]
    rfl

/-- The wall loop of one sector succeeds and keeps the coverage sane. -/
theorem processWalls_ok {intr : Interval} :
    ∀ {ws : List (Wall × Geometry Pt2)} {cov : Coverage}, CovOk cov →
      ∃ cov' wr ps, processWalls intr cov ws = some (cov', wr, ps) ∧ CovOk cov' := by
  intro ws
  induction ws with
  | nil =>
    intro cov hc
    exact ⟨cov, [], [], rfl, hc⟩
  | cons wg rest ih =>
    intro cov hc
    unfold processWalls
    split_ifs with hns
    · obtain ⟨cov1, ws1, h1, hc1⟩ := solidWallGo_ok hc
        (fun it hit => linesIter_item_ok hit)
      obtain ⟨cov2, wr2, ps2, h2, hc2⟩ := ih hc1
      refine ⟨cov2, ws1 ++ wr2, ps2, ?_, hc2⟩
      unfold renderSolidWall
      rw [h1]
      simp only [Option.bind_eq_bind, Option.some_bind]
      rw [h2]
      rfl
    · obtain ⟨cov1, ws1, a, b, dr, h1, hc1⟩ :=
        @portalWallGo_ok (decide (wg.2.top_left.2 < wg.2.in_top_left.2))
          (decide (wg.2.bottom_left.2 > wg.2.in_bottom_left.2))
          (linesIter wg.2 intr) _ (WIDTH : ℤ) 0 false
          hc (fun it hit => linesIter_item_ok hit)
      obtain ⟨cov2, wr2, ps2, h2, hc2⟩ := ih hc1
      unfold renderPortalWall
      simp only [Option.bind_eq_bind]
      rw [h1]
      simp only [Option.some_bind, Option.pure_def]
      rw [h2]
      simp only [Option.some_bind]
      exact ⟨cov2, _, _, rfl, hc2⟩

end Build

namespace Build

/-- Processing a valid popped node never panics, keeps the coverage sane, and
pushes only valid sector ids. -/
theorem processSector_ok {sinv cosv px py pz : Frac} {m : MapData}
    (hv : MapValid m) {sid : ℤ} {intr : Interval} {cov : Coverage}
    {rest : List Node} (hc : CovOk cov)
    (hsid : 0 ≤ sid ∧ sid < m.sectors.length) (hq : QueueOk m rest) :
    ∃ q' cov' wr, processSector sinv cosv px py pz m sid intr cov rest =
      some (q', cov', wr) ∧ CovOk cov' ∧ QueueOk m q' := by
  obtain ⟨-, -, hall, hwalls⟩ := hv
  have hsome : (sectorWalls m sid).isSome = true := by
    have h := hall sid.toNat (by omega)
    rwa [Int.toNat_of_nonneg hsid.1] at h
  rcases hsw : sectorWalls m sid with _ | ⟨sec, chain⟩
  · rw [hsw] at hsome
    cases hsome
  · unfold processSector
    rw [hsw]
    simp only [Option.bind_eq_bind, Option.some_bind]
    set projected := chain.filterMap (fun it =>
      (projectWall sinv cosv px py pz m sec it.2.1 it.2.2).map
        (fun p => (it.2.1, p))) with hprojected
    set sorted := List.insertionSort (fun a b => a.2.2 ≤ b.2.2) projected
      with hsorted
    obtain ⟨cov', wr, ps, hpw, hc'⟩ :=
      @processWalls_ok intr (sorted.map (fun a => (a.1, a.2.1))) _ hc
    rw [hpw]
    simp only [Option.some_bind, Option.pure_def]
    refine ⟨ps.reverse ++ rest, cov', wr, rfl, hc', ?_⟩
    intro nd hnd
    rcases List.mem_append.mp hnd with hmem | hmem
    · rw [List.mem_reverse] at hmem
      obtain ⟨-, hspec⟩ := processWalls_spec hpw
      obtain ⟨wg, hwg, he, hne⟩ := hspec nd hmem
      rw [List.mem_map] at hwg
      obtain ⟨a, ha, rfl⟩ := hwg
      have ha' : a ∈ projected := (List.perm_insertionSort _ _).mem_iff.mp ha
      rw [hprojected, List.mem_filterMap] at ha'
      obtain ⟨it, hit, hproj⟩ := ha'
      rw [Option.map_eq_some'] at hproj
      obtain ⟨pg, -, hpg⟩ := hproj
      have hleft : a.1 = it.2.1 := by rw [← hpg]
      have hwmem : it.2.1 ∈ m.walls := by
        obtain ⟨-, -, hx⟩ := sectorWalls_inv hsw
        exact sectorWallsAux_mem hx it hit
      rcases hwalls it.2.1 hwmem with hcase | hcase
      · exfalso
        apply hne
        rw [hleft]
        exact hcase
      · rw [← he, hleft]
        exact hcase
    · exact hq nd hmem

end Build

namespace Build

/-- On a valid map the render loop never reaches a panicking state: every
iteration pops a valid sector id, processes it without `None`, and pushes
only valid ids back. -/
theorem loop_no_crash {sinv cosv px py pz : Frac} {m : MapData}
    (hv : MapValid m) :
    ∀ (n : ℕ) (q : List Node) (cov : Coverage) (w : List Write),
      QueueOk m q → CovOk cov →
      renderLoop sinv cosv px py pz m n q cov w ≠ .crash := by
  intro n
  induction n with
  | zero =>
    intro q cov w _ _
    intro hc
    cases hc
  | succ k ih =>
    intro q cov w hq hc
    show renderLoop sinv cosv px py pz m (k + 1) q cov w ≠ .crash
    simp only [renderLoop]
    split_ifs with hfull
    · intro hcr
      cases hcr
    · cases q with
      | nil =>
        intro hcr
        cases hcr
      | cons nd rest =>
        rcases nd with ⟨sid, intr⟩
        have hsid : 0 ≤ sid ∧ sid < m.sectors.length :=
          hq (sid, intr) (List.mem_cons_self _ _)
        have hrest : QueueOk m rest := fun x hx => hq x (List.mem_cons_of_mem _ hx)
        obtain ⟨q', cov', wr, hps, hc', hq'⟩ :=
          @processSector_ok sinv cosv px py pz m hv sid intr cov rest hc hsid hrest
        simp only [hps]
        exact ih q' cov' (w ++ wr) hq' hc'

end Build

namespace Build

/-- The fresh coverage is sane. -/
theorem covOk_new : CovOk Coverage.new := by
  constructor
  · simp [Coverage.new]
  · intro u hu a b he
    rw [Coverage.new, List.mem_replicate] at hu
    rw [hu.2] at he
    injection he with he
    injection he with h1 h2
    omega

/-- C3 (amended): on every valid map the renderer never panics — no
failing index into the framebuffer, the coverage columns, or the
sector/wall arrays — and, provided additionally that the portal graph
admits a strictly decreasing rank (e.g. it is acyclic), it also returns
normally.  The no-panic conjunct is unconditional in the rank; only
normal return needs it, and must: a visible portal cycle on a valid map
loops forever (see the counterexample). -/
theorem claim_C3 (sinv cosv : Frac) (m : MapData) (hv : MapValid m) :
    (∀ n : ℕ, render sinv cosv m n ≠ .crash) ∧
      ((∃ rank : ℤ → ℕ, RankOk m rank) →
        ∃ (n : ℕ) (r : List Node × Coverage × List Write),
          render sinv cosv m n = .ok r) := by
  have hq0 : QueueOk m [(m.player.sector, interval 0 (WIDTH : ℤ))] := by
    intro nd hnd
    rcases List.mem_singleton.mp hnd with rfl
    exact ⟨hv.1, hv.2.1⟩
  have hnc : ∀ n : ℕ, render sinv cosv m n ≠ .crash := by
    intro n
    exact loop_no_crash hv n _ _ _ hq0 covOk_new
  refine ⟨hnc, ?_⟩
  rintro ⟨rank, hR⟩
  set n := measureQ rank (m.walls.length + 1)
    [(m.player.sector, interval 0 (WIDTH : ℤ))] + 1 with hn
  have hnf : render sinv cosv m n ≠ .fuelOut :=
    loop_completes hR _ _ _ _ (by omega)
  rcases hres : render sinv cosv m n with r | _ | _
  · exact ⟨n, r, hres⟩
  · exact absurd hres (hnc n)
  · exact absurd hres hnf

end Build

namespace Build

/-- Witness for C3: the trivial one-sector solid map is valid, its render
never crashes, and — its portal graph being trivially ranked — it returns
normally (here with the exact trig values of its angle 0). -/
theorem claim_C3_witness :
    MapValid mapTrivial ∧
      ((∀ n : ℕ,
          render (Frac.ofInt (-1)) (Frac.ofInt 0) mapTrivial n ≠ .crash) ∧
        ∃ (n : ℕ) (r : List Node × Coverage × List Write),
          render (Frac.ofInt (-1)) (Frac.ofInt 0) mapTrivial n = .ok r) :=
  ⟨by decide,
    (claim_C3 (Frac.ofInt (-1)) (Frac.ofInt 0) mapTrivial (by decide)).1,
    (claim_C3 (Frac.ofInt (-1)) (Frac.ofInt 0) mapTrivial (by decide)).2
      ⟨fun _ => 0, rankOk_mapTrivial⟩⟩

end Build
namespace Build

/-- Every pixel a successful `render_line` writes sits in the line's column,
inside the still-uncovered interval of that column (so the coverage was not
yet full), and inside the line's own row interval. -/
theorem renderLine_mem {cov : Coverage} {seg : Seg} {color : ℕ}
    {ws : List Write} (h : renderLine cov seg color = some ws)
    {x y : ℤ} {c : ℕ} (hm : (x, y, c) ∈ ws) :
    x = seg.1.1 ∧ cov.is_full = false ∧ covMem cov x y ∧
      contains (interval seg.1.2 seg.2.2) y = true := by
  obtain ⟨⟨x0, y0⟩, x1, y1⟩ := seg
  dsimp only [renderLine] at h
  split_ifs at h with hx
  subst hx
  rcases hcol : cov.get_column (usizeOf x0) with _ | cur
  · rw [hcol] at h
    cases h
  · rw [hcol] at h
    dsimp only at h
    rcases hint : intersect cur (interval y0 y1) with _ | ⟨a, b⟩
    · rw [hint] at h
      injection h with h
      rw [← h] at hm
      cases hm
    · rw [hint] at h
      dsimp only at h
      split_ifs at h with hgap
      injection h with h
      rw [← h] at hm
      rw [List.mem_map] at hm
      obtain ⟨k, hk, hkeq⟩ := hm
      simp only [List.bind_eq_bind, List.pure_def, List.mem_bind,
        List.mem_singleton, List.mem_range] at hk
      obtain ⟨k0, hk0, rfl⟩ := hk
      injection hkeq with e1 hkeq
      injection hkeq with e2 e3
      have hxx : x = x0 := e1.symm
      have hyy : y = a + (k0 : ℤ) := e2.symm
      have hfull : cov.is_full = false := by
        by_contra hf
        rw [Bool.not_eq_false] at hf
        rw [Coverage.get_column, if_pos hf] at hcol
        injection hcol with hcol
        rw [← hcol] at hint
        simp [intersect] at hint
      have hcy : contains cur y = true ∧ contains (interval y0 y1) y = true := by
        rw [← contains_intersect, hint]
        have hab : a ≤ y ∧ y < b := by
          constructor
          · omega
          · have : (k0 : ℤ) < ((b - a).toNat : ℤ) := by exact_mod_cast hk0
            omega
        simp [contains]
        omega
      refine ⟨hxx, hfull, ?_, hcy.2⟩
      rw [covMem, colSet, hxx]
      rw [Coverage.get_column, if_neg (by simp [hfull])] at hcol
      split_ifs at hcol with hlt
      injection hcol with hcol
      rw [List.getD_eq_getElem _ _ hlt]
      have hgE : cov.columns[usizeOf x0] = cur := hcol
      rw [hgE]
      exact hcy.1

end Build

namespace Build

/-- Bounds extracted from membership in a constructed interval. -/
theorem contains_interval_bounds {l r y : ℤ}
    (h : contains (interval l r) y = true) : l ≤ y ∧ y < r := by
  rw [interval] at h
  split_ifs at h with hlr
  · cases h
  · simp [contains] at h
    omega

/-- A successful `render_line` call was given a vertical segment. -/
theorem renderLine_cols {cov : Coverage} {seg : Seg} {color : ℕ}
    {ws : List Write} (h : renderLine cov seg color = some ws) :
    seg.1.1 = seg.2.1 := by
  obtain ⟨⟨x0, y0⟩, x1, y1⟩ := seg
  dsimp only [renderLine] at h
  split_ifs at h with hx
  exact hx

/-- After a successful non-full `intersect_column`, the stored interval of the
touched column is the intersection of the old one with the argument. -/
theorem intersect_column_colSet {cov cov' : Coverage} {col : ℕ} {i : Interval}
    (hf : cov.is_full = false)
    (h : Coverage.intersect_column cov col i = some cov') {x : ℤ}
    (hx : usizeOf x = col) :
    colSet cov' x = intersect (colSet cov x) i := by
  rw [Coverage.intersect_column, if_neg (by simp [hf])] at h
  split_ifs at h with hlt
  injection h with h
  rw [colSet, colSet, hx, ← h]
  dsimp only
  rw [List.getD_eq_getElem _ _ (by simpa using hlt),
    List.getD_eq_getElem _ _ hlt]
  rw [List.getElem_set_self]
  rfl

end Build

namespace Build

/-- Every pixel a successful solid-wall column pass writes was uncovered
before the pass and is covered after it: the pass empties the column it
wrote. -/
theorem solidWallItem_mem {cov cov' : Coverage} {it : ℕ × Seg × Seg}
    {wr : List Write} (h : solidWallItem cov it = some (cov', wr))
    {x y : ℤ} {c : ℕ} (hm : (x, y, c) ∈ wr) :
    covMem cov x y ∧ ¬ covMem cov' x y := by
  obtain ⟨i, wall, prt⟩ := it
  dsimp only [solidWallItem] at h
  rcases h1 : renderLine cov wall (if i = 0 then BLACK_COLOR else WALL_COLOR)
    with _ | w1
  · rw [h1] at h; cases h
  rcases h2 : renderLine cov ((wall.2.1, wall.2.2 - 1), wall.2) BLACK_COLOR
    with _ | w2
  · rw [h1, h2] at h; cases h
  rcases h3 : renderLine cov (wall.1, (wall.1.1, wall.1.2 + 1)) BLACK_COLOR
    with _ | w3
  · rw [h1, h2, h3] at h; cases h
  rcases h4 : renderLine cov ((wall.1.1, 0), wall.1) CEILING_COLOR with _ | w4
  · rw [h1, h2, h3, h4] at h; cases h
  rcases h5 : renderLine cov (wall.2, (wall.2.1, (HEIGHT : ℤ))) FLOOR_COLOR
    with _ | w5
  · rw [h1, h2, h3, h4, h5] at h; cases h
  rcases h6 : Coverage.intersect_column cov (usizeOf wall.1.1) none
    with _ | cov2
  · rw [h1, h2, h3, h4, h5, h6] at h; cases h
  rw [h1, h2, h3, h4, h5, h6] at h
  simp only [Option.bind_eq_bind, Option.some_bind, Option.pure_def] at h
  injection h with h
  injection h with hcv hwr
  have hvert : wall.1.1 = wall.2.1 := renderLine_cols h1
  rw [← hwr] at hm
  have hfacts : x = wall.1.1 ∧ cov.is_full = false ∧ covMem cov x y := by
    rcases List.mem_append.mp hm with hm' | hm5
    · rcases List.mem_append.mp hm' with hm'' | hm4
      · rcases List.mem_append.mp hm'' with hm''' | hm3
        · rcases List.mem_append.mp hm''' with hm1 | hm2
          · obtain ⟨e, hf, hc, -⟩ := renderLine_mem h1 hm1
            exact ⟨e, hf, hc⟩
          · obtain ⟨e, hf, hc, -⟩ := renderLine_mem h2 hm2
            exact ⟨by rw [e, hvert], hf, hc⟩
        · obtain ⟨e, hf, hc, -⟩ := renderLine_mem h3 hm3
          exact ⟨e, hf, hc⟩
      · obtain ⟨e, hf, hc, -⟩ := renderLine_mem h4 hm4
        exact ⟨e, hf, hc⟩
    · obtain ⟨e, hf, hc, -⟩ := renderLine_mem h5 hm5
      exact ⟨by rw [e, hvert], hf, hc⟩
  obtain ⟨hx, hf, hc⟩ := hfacts
  refine ⟨hc, ?_⟩
  rw [← hcv]
  rw [covMem, intersect_column_colSet hf h6 (by rw [hx]), intersect_none_right _]
  simp [contains]

end Build

namespace Build

/-- Packaged form of `renderLine_mem` with the row bounds unfolded. -/
theorem renderLine_mem' {cov : Coverage} {sx sy0 sx1 sy1 : ℤ} {color : ℕ}
    {ws : List Write} (h : renderLine cov ((sx, sy0), (sx1, sy1)) color = some ws)
    {x y : ℤ} {c : ℕ} (hm : (x, y, c) ∈ ws) :
    x = sx ∧ cov.is_full = false ∧ covMem cov x y ∧ sy0 ≤ y ∧ y < sy1 := by
  obtain ⟨e, hf, hc, hb⟩ := renderLine_mem h hm
  obtain ⟨h1, h2⟩ := contains_interval_bounds hb
  exact ⟨e, hf, hc, h1, h2⟩

/-- A row outside the open portal hole is covered once the column has been
intersected with the hole. -/
theorem portal_out {cov cov' : Coverage} {x y p0 p1 : ℤ}
    (hf : cov.is_full = false)
    (hcv : Coverage.intersect_column cov (usizeOf x)
      (interval (p0 + 1) (p1 - 1)) = some cov')
    (hy : y ≤ p0 ∨ p1 - 1 ≤ y) : ¬ covMem cov' x y := by
  intro hmem
  rw [covMem, intersect_column_colSet hf hcv rfl] at hmem
  obtain ⟨-, h2⟩ := (contains_intersect _ _ _).mp hmem
  obtain ⟨hl, hr⟩ := contains_interval_bounds h2
  omega

end Build

namespace Build

/-- Every pixel a successful portal-wall column pass writes was uncovered
before the pass and lies outside the open portal hole that remains, so it
is covered afterwards. -/
theorem portalWallItem_mem {htf hbf : Bool} {cov cov2 : Coverage}
    {it : ℕ × Seg × Seg} {wr : List Write} (hok : ItemOk it)
    (h : portalWallItem htf hbf cov it = some (cov2, wr))
    {x y : ℤ} {c : ℕ} (hm : (x, y, c) ∈ wr) :
    covMem cov x y ∧ ¬ covMem cov2 x y := by
  obtain ⟨i, ⟨⟨⟨X, wy0⟩, ⟨X1, wy1⟩⟩, ⟨⟨px0, py0⟩, ⟨px1, py1⟩⟩⟩⟩ := it
  obtain ⟨he1, he2, he3, -, -, hn1, hn2⟩ := hok
  dsimp only at he1 he2 he3 hn1 hn2
  subst he1
  subst he2
  subst he3
  dsimp only [portalWallItem] at h
  cases htf <;> cases hbf <;>
    simp only [Bool.or_self, Bool.or_true, Bool.true_or, Bool.false_or,
      if_true, if_false, Bool.false_eq_true, Option.some_bind,
      Option.bind_eq_bind, Option.pure_def] at h
  case false.false =>
    rcases h1 : renderLine cov ((px1, py1 - 1), px1, py1) BLACK_COLOR with _ | w1
    · rw [h1] at h; cases h
    rcases h2 : renderLine cov ((px1, py0), px1, py0 + 1) BLACK_COLOR with _ | w2
    · rw [h1, h2] at h; cases h
    rcases h3 : renderLine cov ((px1, 0), px1, wy0) CEILING_COLOR with _ | w3
    · rw [h1, h2, h3] at h; cases h
    rcases h4 : renderLine cov ((px1, wy1), px1, (HEIGHT : ℤ)) FLOOR_COLOR
      with _ | w4
    · rw [h1, h2, h3, h4] at h; cases h
    rcases h6 : Coverage.intersect_column cov (usizeOf px1)
      (interval (py0 + 1) (py1 - 1)) with _ | cov'
    · rw [h1, h2, h3, h4, h6] at h; cases h
    rw [h1, h2, h3, h4, h6] at h
    simp only [Option.some_bind, List.append_nil, List.nil_append] at h
    injection h with h
    injection h with hcv hwr
    rw [← hwr] at hm
    subst hcv
    rcases List.mem_append.mp hm with hm' | hm4
    rotate_left
    · obtain ⟨e, hf, hc, hy1, hy2⟩ := renderLine_mem' h4 hm4
      exact ⟨hc, by rw [e]; exact portal_out hf h6 (by omega)⟩
    rcases List.mem_append.mp hm' with hm'' | hm3
    rotate_left
    · obtain ⟨e, hf, hc, hy1, hy2⟩ := renderLine_mem' h3 hm3
      exact ⟨hc, by rw [e]; exact portal_out hf h6 (by omega)⟩
    rcases List.mem_append.mp hm'' with hm1 | hm2
    · obtain ⟨e, hf, hc, hy1, hy2⟩ := renderLine_mem' h1 hm1
      exact ⟨hc, by rw [e]; exact portal_out hf h6 (by omega)⟩
    · obtain ⟨e, hf, hc, hy1, hy2⟩ := renderLine_mem' h2 hm2
      exact ⟨hc, by rw [e]; exact portal_out hf h6 (by omega)⟩
  case true.false =>
    rcases h1 : renderLine cov ((px1, py1 - 1), px1, py1) BLACK_COLOR with _ | w1
    · rw [h1] at h; cases h
    rcases h2 : renderLine cov ((px1, py0), px1, py0 + 1) BLACK_COLOR with _ | w2
    · rw [h1, h2] at h; cases h
    rcases ha : renderLine cov ((px1, wy0), px1, py0)
      (if i = 0 then BLACK_COLOR else WALL_COLOR) with _ | wa
    · rw [h1, h2, ha] at h; cases h
    rcases hb : renderLine cov ((px1, wy0), px1, wy0 + 1) BLACK_COLOR with _ | wb
    · rw [h1, h2, ha, hb] at h; cases h
    rcases h3 : renderLine cov ((px1, 0), px1, wy0) CEILING_COLOR with _ | w3
    · rw [h1, h2, ha, hb, h3] at h; cases h
    rcases h4 : renderLine cov ((px1, wy1), px1, (HEIGHT : ℤ)) FLOOR_COLOR
      with _ | w4
    · rw [h1, h2, ha, hb, h3, h4] at h; cases h
    rcases h6 : Coverage.intersect_column cov (usizeOf px1)
      (interval (py0 + 1) (py1 - 1)) with _ | cov'
    · rw [h1, h2, ha, hb, h3, h4, h6] at h; cases h
    rw [h1, h2, ha, hb, h3, h4, h6] at h
    simp only [Option.some_bind, List.append_nil, List.nil_append] at h
    injection h with h
    injection h with hcv hwr
    rw [← hwr] at hm
    subst hcv
    rcases List.mem_append.mp hm with hm' | hm4
    rotate_left
    · obtain ⟨e, hf, hc, hy1, hy2⟩ := renderLine_mem' h4 hm4
      exact ⟨hc, by rw [e]; exact portal_out hf h6 (by omega)⟩
    rcases List.mem_append.mp hm' with hm'' | hm3
    rotate_left
    · obtain ⟨e, hf, hc, hy1, hy2⟩ := renderLine_mem' h3 hm3
      exact ⟨hc, by rw [e]; exact portal_out hf h6 (by omega)⟩
    rcases List.mem_append.mp hm'' with hm''' | hmf
    rotate_left
    · rcases List.mem_append.mp hmf with hma | hmb
      · obtain ⟨e, hf, hc, hy1, hy2⟩ := renderLine_mem' ha hma
        exact ⟨hc, by rw [e]; exact portal_out hf h6 (by omega)⟩
      · obtain ⟨e, hf, hc, hy1, hy2⟩ := renderLine_mem' hb hmb
        exact ⟨hc, by rw [e]; exact portal_out hf h6 (by omega)⟩
    rcases List.mem_append.mp hm''' with hm1 | hm2
    · obtain ⟨e, hf, hc, hy1, hy2⟩ := renderLine_mem' h1 hm1
      exact ⟨hc, by rw [e]; exact portal_out hf h6 (by omega)⟩
    · obtain ⟨e, hf, hc, hy1, hy2⟩ := renderLine_mem' h2 hm2
      exact ⟨hc, by rw [e]; exact portal_out hf h6 (by omega)⟩
  case false.true =>
    rcases h1 : renderLine cov ((px1, py1 - 1), px1, py1) BLACK_COLOR with _ | w1
    · rw [h1] at h; cases h
    rcases h2 : renderLine cov ((px1, py0), px1, py0 + 1) BLACK_COLOR with _ | w2
    · rw [h1, h2] at h; cases h
    rcases hcx : renderLine cov ((px1, py1), px1, wy1)
      (if i = 0 then BLACK_COLOR else PORTAL_FRAME_COLOR) with _ | wc
    · rw [h1, h2, hcx] at h; cases h
    rcases hd : renderLine cov ((px1, wy1 - 1), px1, wy1) BLACK_COLOR with _ | wd
    · rw [h1, h2, hcx, hd] at h; cases h
    rcases h3 : renderLine cov ((px1, 0), px1, wy0) CEILING_COLOR with _ | w3
    · rw [h1, h2, hcx, hd, h3] at h; cases h
    rcases h4 : renderLine cov ((px1, wy1), px1, (HEIGHT : ℤ)) FLOOR_COLOR
      with _ | w4
    · rw [h1, h2, hcx, hd, h3, h4] at h; cases h
    rcases h6 : Coverage.intersect_column cov (usizeOf px1)
      (interval (py0 + 1) (py1 - 1)) with _ | cov'
    · rw [h1, h2, hcx, hd, h3, h4, h6] at h; cases h
    rw [h1, h2, hcx, hd, h3, h4, h6] at h
    simp only [Option.some_bind, List.append_nil, List.nil_append] at h
    injection h with h
    injection h with hcv hwr
    rw [← hwr] at hm
    subst hcv
    rcases List.mem_append.mp hm with hm' | hm4
    rotate_left
    · obtain ⟨e, hf, hc, hy1, hy2⟩ := renderLine_mem' h4 hm4
      exact ⟨hc, by rw [e]; exact portal_out hf h6 (by omega)⟩
    rcases List.mem_append.mp hm' with hm'' | hm3
    rotate_left
    · obtain ⟨e, hf, hc, hy1, hy2⟩ := renderLine_mem' h3 hm3
      exact ⟨hc, by rw [e]; exact portal_out hf h6 (by omega)⟩
    rcases List.mem_append.mp hm'' with hm''' | hmf
    rotate_left
    · rcases List.mem_append.mp hmf with hmc | hmd
      · obtain ⟨e, hf, hc, hy1, hy2⟩ := renderLine_mem' hcx hmc
        exact ⟨hc, by rw [e]; exact portal_out hf h6 (by omega)⟩
      · obtain ⟨e, hf, hc, hy1, hy2⟩ := renderLine_mem' hd hmd
        exact ⟨hc, by rw [e]; exact portal_out hf h6 (by omega)⟩
    rcases List.mem_append.mp hm''' with hm1 | hm2
    · obtain ⟨e, hf, hc, hy1, hy2⟩ := renderLine_mem' h1 hm1
      exact ⟨hc, by rw [e]; exact portal_out hf h6 (by omega)⟩
    · obtain ⟨e, hf, hc, hy1, hy2⟩ := renderLine_mem' h2 hm2
      exact ⟨hc, by rw [e]; exact portal_out hf h6 (by omega)⟩
  case true.true =>
    rcases h1 : renderLine cov ((px1, py1 - 1), px1, py1) BLACK_COLOR with _ | w1
    · rw [h1] at h; cases h
    rcases h2 : renderLine cov ((px1, py0), px1, py0 + 1) BLACK_COLOR with _ | w2
    · rw [h1, h2] at h; cases h
    rcases ha : renderLine cov ((px1, wy0), px1, py0)
      (if i = 0 then BLACK_COLOR else WALL_COLOR) with _ | wa
    · rw [h1, h2, ha] at h; cases h
    rcases hb : renderLine cov ((px1, wy0), px1, wy0 + 1) BLACK_COLOR with _ | wb
    · rw [h1, h2, ha, hb] at h; cases h
    rcases hcx : renderLine cov ((px1, py1), px1, wy1)
      (if i = 0 then BLACK_COLOR else PORTAL_FRAME_COLOR) with _ | wc
    · rw [h1, h2, ha, hb, hcx] at h; cases h
    rcases hd : renderLine cov ((px1, wy1 - 1), px1, wy1) BLACK_COLOR with _ | wd
    · rw [h1, h2, ha, hb, hcx, hd] at h; cases h
    rcases h3 : renderLine cov ((px1, 0), px1, wy0) CEILING_COLOR with _ | w3
    · rw [h1, h2, ha, hb, hcx, hd, h3] at h; cases h
    rcases h4 : renderLine cov ((px1, wy1), px1, (HEIGHT : ℤ)) FLOOR_COLOR
      with _ | w4
    · rw [h1, h2, ha, hb, hcx, hd, h3, h4] at h; cases h
    rcases h6 : Coverage.intersect_column cov (usizeOf px1)
      (interval (py0 + 1) (py1 - 1)) with _ | cov'
    · rw [h1, h2, ha, hb, hcx, hd, h3, h4, h6] at h; cases h
    rw [h1, h2, ha, hb, hcx, hd, h3, h4, h6] at h
    simp only [Option.some_bind, List.append_nil, List.nil_append] at h
    injection h with h
    injection h with hcv hwr
    rw [← hwr] at hm
    subst hcv
    rcases List.mem_append.mp hm with hm' | hm4
    rotate_left
    · obtain ⟨e, hf, hc, hy1, hy2⟩ := renderLine_mem' h4 hm4
      exact ⟨hc, by rw [e]; exact portal_out hf h6 (by omega)⟩
    rcases List.mem_append.mp hm' with hm'' | hm3
    rotate_left
    · obtain ⟨e, hf, hc, hy1, hy2⟩ := renderLine_mem' h3 hm3
      exact ⟨hc, by rw [e]; exact portal_out hf h6 (by omega)⟩
    rcases List.mem_append.mp hm'' with hm''' | hmf
    rotate_left
    · rcases List.mem_append.mp hmf with hmt | hmb'
      · rcases List.mem_append.mp hmt with hma | hmb
        · obtain ⟨e, hf, hc, hy1, hy2⟩ := renderLine_mem' ha hma
          exact ⟨hc, by rw [e]; exact portal_out hf h6 (by omega)⟩
        · obtain ⟨e, hf, hc, hy1, hy2⟩ := renderLine_mem' hb hmb
          exact ⟨hc, by rw [e]; exact portal_out hf h6 (by omega)⟩
      · rcases List.mem_append.mp hmb' with hmc | hmd
        · obtain ⟨e, hf, hc, hy1, hy2⟩ := renderLine_mem' hcx hmc
          exact ⟨hc, by rw [e]; exact portal_out hf h6 (by omega)⟩
        · obtain ⟨e, hf, hc, hy1, hy2⟩ := renderLine_mem' hd hmd
          exact ⟨hc, by rw [e]; exact portal_out hf h6 (by omega)⟩
    rcases List.mem_append.mp hm''' with hm1 | hm2
    · obtain ⟨e, hf, hc, hy1, hy2⟩ := renderLine_mem' h1 hm1
      exact ⟨hc, by rw [e]; exact portal_out hf h6 (by omega)⟩
    · obtain ⟨e, hf, hc, hy1, hy2⟩ := renderLine_mem' h2 hm2
      exact ⟨hc, by rw [e]; exact portal_out hf h6 (by omega)⟩

end Build

namespace Build

set_option maxRecDepth 1000000
set_option maxHeartbeats 1600000

instance (it : ℕ × Seg × Seg) : Decidable (ItemOk it) := by
  unfold ItemOk
  infer_instance

/-- Dispatch of the per-column pass facts over the wall kind. -/
theorem passItem_mem {kind htf hbf : Bool} {cov cov' : Coverage}
    {it : ℕ × Seg × Seg} {wr : List Write} (hok : ItemOk it)
    (h : passItem kind htf hbf cov it = some (cov', wr))
    {x y : ℤ} {c : ℕ} (hm : (x, y, c) ∈ wr) :
    covMem cov x y ∧ ¬ covMem cov' x y := by
  rw [passItem] at h
  split_ifs at h
  · exact solidWallItem_mem h hm
  · exact portalWallItem_mem hok h hm

/-- First witness item: a portal wall occupying rows 40–160 of column 0 with
its hole at rows 61–139. -/
def itW1 : ℕ × Seg × Seg := (0, ((0, 40), (0, 160)), ((0, 60), (0, 140)))

/-- Second witness item: a solid wall filling exactly the remaining hole. -/
def itW2 : ℕ × Seg × Seg := (0, ((0, 61), (0, 139)), ((0, 61), (0, 139)))

/-- A one-column coverage with the whole column uncovered. -/
def covW0 : Coverage := ⟨[some (0, 200)], 1⟩

/-- The coverage `covW0` leaves behind after the portal pass on `itW1`. -/
def covW1 : Coverage := ⟨[some (61, 139)], 1⟩

/-- The writes of the portal pass on `itW1`. -/
def wrW1 : List Write :=
  (passItem false false false covW0 itW1).elim [] Prod.snd

/-- The coverage left after the solid pass on `itW2`. -/
def covW2 : Coverage := ⟨[none], 0⟩

/-- The writes of the solid pass on `itW2`. -/
def wrW2 : List Write :=
  (passItem true false false covW1 itW2).elim [] Prod.snd

/-- C2 (amended): across passes the per-column coverage does make pixel
writes disjoint — every pixel a pass writes is removed from the coverage
it leaves, and a later pass writes only pixels still in its (smaller)
coverage — but within one pass the borders double-paint, so "at most once"
only holds between distinct passes (see the counterexample). -/
theorem claim_C2 {kA kB htfA hbfA htfB hbfB : Bool}
    {covA covA' covB covB' : Coverage} {itA itB : ℕ × Seg × Seg}
    {wrA wrB : List Write} (hokA : ItemOk itA) (hokB : ItemOk itB)
    (hA : passItem kA htfA hbfA covA itA = some (covA', wrA))
    (hle : CovLe covB covA')
    (hB : passItem kB htfB hbfB covB itB = some (covB', wrB)) :
    ∀ (x y : ℤ) (cA cB : ℕ), (x, y, cA) ∈ wrA → (x, y, cB) ∈ wrB → False := by
  intro x y cA cB h1 h2
  obtain ⟨-, hout⟩ := passItem_mem hokA hA h1
  obtain ⟨hin, -⟩ := passItem_mem hokB hB h2
  exact hout (hle x y hin)

/-- Witness for C2: a concrete portal pass followed by a solid pass through
the remaining hole of the same column; the two write sets share no pixel. -/
theorem claim_C2_witness :
    ItemOk itW1 ∧ ItemOk itW2 ∧
      passItem false false false covW0 itW1 = some (covW1, wrW1) ∧
      CovLe covW1 covW1 ∧
      passItem true false false covW1 itW2 = some (covW2, wrW2) ∧
      ∀ (x y : ℤ) (cA cB : ℕ), (x, y, cA) ∈ wrW1 → (x, y, cB) ∈ wrW2 → False :=
  ⟨by decide, by decide, by decide, fun x y h => h, by decide,
    @claim_C2 false true false false false false covW0 covW1 covW1 covW2
      itW1 itW2 wrW1 wrW2 (by decide) (by decide) (by decide)
      (fun x y h => h) (by decide)⟩

end Build
